import Mathlib

/-!
Verification of the x86_64 CPU-template codec and resolver
(`src/vmm/src/guest_config/templates/x86_64.rs`).

Rust strings are embedded as `List Char`; Rust byte-level operations
(`String::len`, byte-range slicing) are modelled through UTF-8 sizes
(`Char.utf8Size`).  Machine integers (`u32`, `u64`) are embedded as `Nat`
with explicit `< 2 ^ 32` / `< 2 ^ 64` bounds and the overflow checks that
`from_str_radix` performs.  A Rust panic (out-of-bounds slice or index) is
modelled as `Option.none` at the outermost level of the affected function;
fallible parses return `Except`.
-/

namespace CpuTemplates

/-- Error kinds of Rust `core::num::ParseIntError` relevant here. -/
inductive IntErrKind where
  | empty
  | invalidDigit
  | posOverflow
deriving DecidableEq, Repr

/-- Embedding of `char::to_digit(radix)`: digit value of `c` in the given
radix, accepting `0-9`, `a-z`, `A-Z`, filtered by the radix. -/
def charToDigit (c : Char) (r : Nat) : Option Nat :=
  if 48 ≤ c.toNat ∧ c.toNat ≤ 57 then
    (if c.toNat - 48 < r then some (c.toNat - 48) else none)
  else if 97 ≤ c.toNat ∧ c.toNat ≤ 122 then
    (if c.toNat - 87 < r then some (c.toNat - 87) else none)
  else if 65 ≤ c.toNat ∧ c.toNat ≤ 90 then
    (if c.toNat - 55 < r then some (c.toNat - 55) else none)
  else none

/-- Digit-accumulation loop of Rust `uN::from_str_radix`: fold msb-first,
checking the accumulated value stays below `max` (the `2 ^ N` overflow
bound) after every step. -/
def parseDigits (r max : Nat) : List Char → Nat → Except IntErrKind Nat
  | [], acc => Except.ok acc
  | c :: cs, acc =>
    match charToDigit c r with
    | none => Except.error IntErrKind.invalidDigit
    | some d =>
      if acc * r + d < max then parseDigits r max cs (acc * r + d)
      else Except.error IntErrKind.posOverflow

/-- Embedding of Rust `uN::from_str_radix` (and of `uN::from_str`, which is
`from_str_radix` at radix 10): an optional leading `+` sign followed by a
nonempty run of digits of the radix.  `max` is `2 ^ N`. -/
def fromStrRadix (r max : Nat) (s : List Char) : Except IntErrKind Nat :=
  match s with
  | [] => Except.error IntErrKind.empty
  | c :: cs =>
    let digits := if c = '+' then cs else s
    if digits.isEmpty then Except.error IntErrKind.empty
    else parseDigits r max digits 0

/-- Optional-sign strip performed by `from_str_radix` before the digit
loop: drops one leading `+`. -/
def signStrip (s : List Char) : List Char :=
  match s with
  | [] => []
  | c :: _ => if c = '+' then s.tail else s

/-- Value of a msb-first digit list under radix `r`, starting from
accumulator `acc` (the abstract value computed by `parseDigits`). -/
def msbValN (r acc : Nat) (ds : List Nat) : Nat :=
  ds.foldl (fun a d => a * r + d) acc

/-- Value of a msb-first character run under radix `r`, each character
taken through `charToDigit` (missing digits count as 0). -/
def msbValC (r acc : Nat) (s : List Char) : Nat :=
  msbValN r acc (s.map (fun c => (charToDigit c r).getD 0))

/-- Rust `String::len`: the UTF-8 byte length of the text. -/
def rustByteLen (s : List Char) : Nat :=
  (s.map Char.utf8Size).sum

/-- Rust byte-range slicing `(&s[0..n], &s[n..])`: splits the text at byte
offset `n`; `none` models the panic raised when `n` is not a character
boundary. -/
def splitAtByteOffset : Nat → List Char → Option (List Char × List Char)
  | 0, s => some ([], s)
  | _ + 1, [] => none
  | n + 1, c :: cs =>
    if c.utf8Size ≤ n + 1 then
      match splitAtByteOffset (n + 1 - c.utf8Size) cs with
      | none => none
      | some (a, b) => some (c :: a, b)
    else none

/-- Error type of the custom serde errors produced by
`deserialize_u32_from_str`; it records the offending text (which the Rust
message embeds) and which of the two message forms was used
(`... as a number ...` vs `... as a decimal number ...`). -/
inductive NumErr where
  | asNumber (text : List Char) (kind : IntErrKind)
  | asDecimalNumber (text : List Char) (kind : IntErrKind)
deriving DecidableEq, Repr

/-- Embedding of `deserialize_u32_from_str`: if the byte length exceeds 2,
dispatch on the first two bytes (`0b` → base 2 on the rest, `0x` → base 16
on the rest, otherwise base 10 on the whole text); else base 10 on the
whole text.  The outer `Option` models the byte-slice panic `&s[0..2]`
when byte 2 is not a char boundary. -/
def deserialize_u32_from_str (s : List Char) : Option (Except NumErr Nat) :=
  if 2 < rustByteLen s then
    match splitAtByteOffset 2 s with
    | none => none
    | some (pre, rest) =>
      let r :=
        if pre = ['0', 'b'] then fromStrRadix 2 (2 ^ 32) rest
        else if pre = ['0', 'x'] then fromStrRadix 16 (2 ^ 32) rest
        else fromStrRadix 10 (2 ^ 32) s
      some (r.mapError (fun e => NumErr.asNumber s e))
  else
    some ((fromStrRadix 10 (2 ^ 32) s).mapError
      (fun e => NumErr.asDecimalNumber s e))

/-- Little-endian digit list of `n` in base `b + 2`, fuel-driven so that it
reduces inside the kernel; fuel `n` always suffices. -/
def natDigitsLECore (b : Nat) : Nat → Nat → List Nat
  | 0, _ => []
  | _ + 1, 0 => []
  | fuel + 1, n + 1 => (n + 1) % (b + 2) :: natDigitsLECore b fuel ((n + 1) / (b + 2))

/-- Little-endian digits of `n` in base `b + 2` (empty for `n = 0`). -/
def natDigitsLE (b n : Nat) : List Nat :=
  natDigitsLECore b n n

/-- Minimal digit run of `n` in base `b + 2`, little-endian; `0` renders as
a single zero digit, as Rust `format!` does. -/
def minDigitsLE (b n : Nat) : List Nat :=
  if n = 0 then [0] else natDigitsLE b n

/-- Lowercase digit characters used by Rust `format!` for `{:b}`/`{:x}`. -/
def digitChar (d : Nat) : Char :=
  if d < 10 then Char.ofNat (48 + d)
  else if d < 16 then Char.ofNat (87 + d)
  else '*'

/-- Embedding of Rust `format!("{:0wB}", n)` for base `b + 2`: minimal
digits of `n` msb-first, left-padded with `0` to width `w`. -/
def fmtPad (b w n : Nat) : List Char :=
  let ds := ((minDigitsLE b n).reverse).map digitChar
  List.replicate (w - ds.length) '0' ++ ds

/-- Embedding of `serialize_u32_to_hex_str`: `format!("0x{:x}", number)`. -/
def serialize_u32_to_hex_str (n : Nat) : List Char :=
  '0' :: 'x' :: fmtPad 14 0 n

/-- Bit-mapped value to adjust targeted bits of a register
(`RegisterValueFilter` with both `u64` fields as `Nat`). -/
structure RegisterValueFilter where
  filter : Nat
  value : Nat
deriving DecidableEq, Repr

/-- Bitwise complement on 64-bit words: Rust `!x` for `x : u64`. -/
def u64Not (x : Nat) : Nat :=
  x ^^^ (2 ^ 64 - 1)

/-- Embedding of `RegisterValueFilter::apply`:
`(value & !self.filter) | self.value`. -/
def RegisterValueFilter.apply (self : RegisterValueFilter) (value : Nat) : Nat :=
  (value &&& u64Not self.filter) ||| self.value

/-- Error of `deserialize_u64_bitmap`'s custom serde messages: the
offending text (after the `0b` strip, as the Rust message embeds) and the
underlying parse failure. -/
structure BitmapErr where
  text : List Char
  kind : IntErrKind
deriving DecidableEq, Repr

/-- Rust `str::replace(a, b)` for one-character patterns. -/
def replaceChar (a b : Char) (s : List Char) : List Char :=
  s.map (fun c => if c = a then b else c)

/-- Combined per-character effect of the two filter-text replaces in
`deserialize_u64_bitmap` (`0`→`1` followed by `x`→`0`). -/
def filterCharMap (c : Char) : Char :=
  if c = '0' then '1' else if c = 'x' then '0' else c

/-- Per-character effect of the value-text replace in
`deserialize_u64_bitmap` (`x`→`0`). -/
def valueCharMap (c : Char) : Char :=
  if c = 'x' then '0' else c

/-- Strip of the optional leading `0b` in `deserialize_u64_bitmap`. -/
def strip0b (s : List Char) : List Char :=
  if s.take 2 = ['0', 'b'] then s.drop 2 else s

/-- Embedding of `deserialize_u64_bitmap`: strip an optional `0b`, derive
the filter text (`0`→`1` then `x`→`0`) and the value text (`x`→`0`), and
parse both as binary `u64`. -/
def deserialize_u64_bitmap (s : List Char) : Except BitmapErr RegisterValueFilter :=
  let bitmap_str := strip0b s
  let filter_str := replaceChar 'x' '0' (replaceChar '0' '1' bitmap_str)
  let value_str := replaceChar 'x' '0' bitmap_str
  match fromStrRadix 2 (2 ^ 64) filter_str with
  | Except.error e => Except.error ⟨bitmap_str, e⟩
  | Except.ok f =>
    match fromStrRadix 2 (2 ^ 64) value_str with
    | Except.error e => Except.error ⟨bitmap_str, e⟩
    | Except.ok v => Except.ok ⟨f, v⟩

/-- Emission loop shared by `serialize_u32_bitmap` / `serialize_u64_bitmap`:
walk the filter text with an index; emit the value character where the
filter character is `1`, else `x`.  `none` models the panic of
`value_str.as_bytes()[idx]` when the index is out of bounds. -/
def emitBody (value_str : List Char) : Nat → List Char → Option (List Char)
  | _, [] => some []
  | idx, c :: cs =>
    if c = '1' then
      match value_str[idx]? with
      | none => none
      | some v => (emitBody value_str (idx + 1) cs).map (fun l => v :: l)
    else (emitBody value_str (idx + 1) cs).map (fun l => 'x' :: l)

/-- Embedding of `serialize_u32_bitmap`: `{:032b}` renderings of value and
filter, then the wildcard emission, prefixed with `0b`. -/
def serialize_u32_bitmap (bitmap : RegisterValueFilter) : Option (List Char) :=
  let value_str := fmtPad 0 32 bitmap.value
  let filter_str := fmtPad 0 32 bitmap.filter
  (emitBody value_str 0 filter_str).map (fun body => '0' :: 'b' :: body)

/-- Embedding of `serialize_u64_bitmap`: as the 32-bit variant but with
`{:064b}` renderings. -/
def serialize_u64_bitmap (bitmap : RegisterValueFilter) : Option (List Char) :=
  let value_str := fmtPad 0 64 bitmap.value
  let filter_str := fmtPad 0 64 bitmap.filter
  (emitBody value_str 0 filter_str).map (fun body => '0' :: 'b' :: body)

/-! Resolver data model (`GetCpuTemplate for Option<CpuTemplateType>`). -/

/-- CPUID register enumeration. -/
inductive CpuidRegister where
  | Eax
  | Ebx
  | Ecx
  | Edx
deriving DecidableEq, Repr

/-- KVM feature flags wrapper (`KvmCpuidFlags(u32)`). -/
structure KvmCpuidFlags where
  flags : Nat
deriving DecidableEq, Repr

/-- Target register to be modified by a bitmap. -/
structure CpuidRegisterModifier where
  register : CpuidRegister
  bitmap : RegisterValueFilter
deriving DecidableEq, Repr

/-- Location of a register in the context of a CPUID tree. -/
structure CpuidLeafModifier where
  leaf : Nat
  subleaf : Nat
  flags : KvmCpuidFlags
  modifiers : List CpuidRegisterModifier
deriving DecidableEq, Repr

/-- Mask to apply to an MSR at the given address. -/
structure RegisterModifier where
  addr : Nat
  bitmap : RegisterValueFilter
deriving DecidableEq, Repr

/-- Wrapper type containing x86_64 CPU config modifiers. -/
structure CustomCpuTemplate where
  cpuid_modifiers : List CpuidLeafModifier
  msr_modifiers : List RegisterModifier
deriving DecidableEq, Repr

/-- `CustomCpuTemplate::default()`: both modifier lists empty. -/
def CustomCpuTemplate.default : CustomCpuTemplate :=
  ⟨[], []⟩

/-- Embedding of `CustomCpuTemplate::get_msr_index_list`. -/
def CustomCpuTemplate.get_msr_index_list (self : CustomCpuTemplate) : List Nat :=
  self.msr_modifiers.map (fun m => m.addr)

/-- Static CPU template identifiers, including the legacy `None` sentinel. -/
inductive StaticCpuTemplate where
  | C3
  | T2
  | T2S
  | T2CL
  | T2A
  | None
deriving DecidableEq, Repr

/-- Template selector: a custom template document or a named static one. -/
inductive CpuTemplateType where
  | Custom (template : CustomCpuTemplate)
  | Static (template : StaticCpuTemplate)
deriving DecidableEq, Repr

/-- Rust `Cow`: the resolver returns either a borrowed reference to the
caller's template or a freshly built owned one. -/
inductive Cow (α : Type) where
  | Borrowed (a : α)
  | Owned (a : α)
deriving DecidableEq, Repr

/-- Modelled from the spec: the failure of the external host vendor-ID
query (`get_vendor_id_from_host`), whose implementation is outside this
fragment; only the fact that it failed matters to the resolver. -/
inductive VendorErr where
  | queryFailed
deriving DecidableEq, Repr

/-- Resolver error taxonomy (`GetCpuTemplateError`). -/
inductive GetCpuTemplateError where
  | GetCpuVendor (e : VendorErr)
  | CpuVendorMismatched
  | InvalidCpuModel
  | InvalidStaticCpuTemplate (t : StaticCpuTemplate)
deriving DecidableEq, Repr

/-- Modelled from the spec: the Intel vendor-ID string constant
(`VENDOR_ID_INTEL`), defined outside this fragment. -/
def VENDOR_ID_INTEL : List Char :=
  ['G', 'e', 'n', 'u', 'i', 'n', 'e', 'I', 'n', 't', 'e', 'l']

/-- Modelled from the spec: the AMD vendor-ID string constant
(`VENDOR_ID_AMD`), defined outside this fragment. -/
def VENDOR_ID_AMD : List Char :=
  ['A', 'u', 't', 'h', 'e', 'n', 't', 'i', 'c', 'A', 'M', 'D']

/-- Modelled from the spec: the injectable host-introspection capability
(vendor-ID query result and whether the host model is at least Cascade
Lake), implemented outside this fragment. -/
structure HostFacts where
  vendorIdResult : Except VendorErr (List Char)
  isAtLeastCascadeLake : Bool

/-- Modelled from the spec: the external per-architecture catalog of
predefined static templates (`c3()`, `t2()`, `t2s()`, `t2cl()`, `t2a()`),
whose concrete contents live outside this fragment. -/
structure TemplateCatalog where
  c3 : CustomCpuTemplate
  t2 : CustomCpuTemplate
  t2s : CustomCpuTemplate
  t2cl : CustomCpuTemplate
  t2a : CustomCpuTemplate

/-- Embedding of `GetCpuTemplate::get_cpu_template` for
`Option<CpuTemplateType>`, with the two external host queries and the
external template catalog passed as explicit inputs. -/
def get_cpu_template (host : HostFacts) (cat : TemplateCatalog)
    (self : Option CpuTemplateType) :
    Except GetCpuTemplateError (Cow CustomCpuTemplate) :=
  match self with
  | some (CpuTemplateType.Custom template) => Except.ok (Cow.Borrowed template)
  | some (CpuTemplateType.Static template) =>
    match host.vendorIdResult with
    | Except.error e => Except.error (GetCpuTemplateError.GetCpuVendor e)
    | Except.ok vendor_id =>
      match template with
      | StaticCpuTemplate.C3 =>
        if vendor_id ≠ VENDOR_ID_INTEL then
          Except.error GetCpuTemplateError.CpuVendorMismatched
        else Except.ok (Cow.Owned cat.c3)
      | StaticCpuTemplate.T2 =>
        if vendor_id ≠ VENDOR_ID_INTEL then
          Except.error GetCpuTemplateError.CpuVendorMismatched
        else Except.ok (Cow.Owned cat.t2)
      | StaticCpuTemplate.T2S =>
        if vendor_id ≠ VENDOR_ID_INTEL then
          Except.error GetCpuTemplateError.CpuVendorMismatched
        else Except.ok (Cow.Owned cat.t2s)
      | StaticCpuTemplate.T2CL =>
        if vendor_id ≠ VENDOR_ID_INTEL then
          Except.error GetCpuTemplateError.CpuVendorMismatched
        else if ¬ host.isAtLeastCascadeLake then
          Except.error GetCpuTemplateError.InvalidCpuModel
        else Except.ok (Cow.Owned cat.t2cl)
      | StaticCpuTemplate.T2A =>
        if vendor_id ≠ VENDOR_ID_AMD then
          Except.error GetCpuTemplateError.CpuVendorMismatched
        else Except.ok (Cow.Owned cat.t2a)
      | StaticCpuTemplate.None =>
        Except.error
          (GetCpuTemplateError.InvalidStaticCpuTemplate StaticCpuTemplate.None)
  | none => Except.ok (Cow.Owned CustomCpuTemplate.default)

/-! Helper lemmas: digits and characters. -/

theorem charToDigit_digitChar_aux :
    ∀ d, d < 16 →
      (d < 2 → charToDigit (digitChar d) 2 = some d) ∧
      (d < 10 → charToDigit (digitChar d) 10 = some d) ∧
      charToDigit (digitChar d) 16 = some d := by
  decide

theorem charToDigit_digitChar {r d : Nat} (hr : r = 2 ∨ r = 10 ∨ r = 16)
    (hd : d < r) : charToDigit (digitChar d) r = some d := by
  have h16 : d < 16 := by rcases hr with h | h | h <;> omega
  rcases hr with h | h | h <;> subst h
  · exact (charToDigit_digitChar_aux d h16).1 hd
  · exact (charToDigit_digitChar_aux d h16).2.1 hd
  · exact (charToDigit_digitChar_aux d h16).2.2

theorem digitChar_ne_plus : ∀ d, d < 16 → digitChar d ≠ '+' := by
  decide

theorem utf8Size_digitChar : ∀ d, d < 16 → (digitChar d).utf8Size = 1 := by
  decide

theorem digitChar_lowerHex :
    ∀ d, d < 16 →
      (48 ≤ (digitChar d).toNat ∧ (digitChar d).toNat ≤ 57) ∨
      (97 ≤ (digitChar d).toNat ∧ (digitChar d).toNat ≤ 102) := by
  decide

theorem char_eq_of_toNat_eq {c d : Char} (h : c.toNat = d.toNat) : c = d := by
  have h1 : Char.ofNat c.toNat = Char.ofNat d.toNat := congrArg Char.ofNat h
  rwa [Char.ofNat_toNat, Char.ofNat_toNat] at h1

theorem charToDigit_two_eq_some {c : Char} {d : Nat}
    (h : charToDigit c 2 = some d) :
    (c = '0' ∧ d = 0) ∨ (c = '1' ∧ d = 1) := by
  unfold charToDigit at h
  split at h
  · split at h
    · rename_i h1 h2
      have hd : d = c.toNat - 48 := (Option.some.injEq _ _ ▸ h).symm
      have : c.toNat = 48 ∨ c.toNat = 49 := by omega
      rcases this with h3 | h3
      · left
        refine ⟨char_eq_of_toNat_eq ?_, by omega⟩
        simp [h3]
      · right
        refine ⟨char_eq_of_toNat_eq ?_, by omega⟩
        simp [h3]
    · exact absurd h (by simp)
  · split at h
    · split at h
      · rename_i hno h1 h2
        exact absurd (Option.some.injEq _ _ ▸ h) (by omega)
      · exact absurd h (by simp)
    · split at h
      · split at h
        · rename_i hno hno2 h1 h2
          exact absurd (Option.some.injEq _ _ ▸ h) (by omega)
        · exact absurd h (by simp)
      · exact absurd h (by simp)

theorem charToDigit_two_isSome {c : Char}
    (h : (charToDigit c 2).isSome = true) :
    c = '0' ∨ c = '1' := by
  obtain ⟨d, hd⟩ := Option.isSome_iff_exists.mp h
  rcases charToDigit_two_eq_some hd with ⟨h1, _⟩ | ⟨h1, _⟩
  · exact Or.inl h1
  · exact Or.inr h1

/-! Helper lemmas: msb-first digit values. -/

theorem msbValN_acc (r : Nat) (ds : List Nat) :
    ∀ acc, msbValN r acc ds = acc * r ^ ds.length + msbValN r 0 ds := by
  induction ds with
  | nil => intro acc; simp [msbValN]
  | cons d t ih =>
    intro acc
    show msbValN r (acc * r + d) t = acc * r ^ (t.length + 1) + msbValN r (0 * r + d) t
    rw [ih (acc * r + d), ih (0 * r + d)]
    ring

theorem msbValN_lt (r : Nat) (ds : List Nat) (h : ∀ d ∈ ds, d < r) :
    msbValN r 0 ds < r ^ ds.length := by
  induction ds with
  | nil => simp [msbValN]
  | cons d t ih =>
    have hd : d < r := h d (List.mem_cons_self d t)
    have ht : msbValN r 0 t < r ^ t.length := ih (fun x hx => h x (List.mem_cons_of_mem d hx))
    show msbValN r (0 * r + d) t < r ^ (t.length + 1)
    rw [msbValN_acc]
    calc (0 * r + d) * r ^ t.length + msbValN r 0 t
        < (0 * r + d) * r ^ t.length + r ^ t.length := by omega
      _ = (d + 1) * r ^ t.length := by ring
      _ ≤ r * r ^ t.length := Nat.mul_le_mul_right _ (by omega)
      _ = r ^ (t.length + 1) := by ring

theorem le_msbValN (r : Nat) (hr : 1 ≤ r) (ds : List Nat) :
    ∀ acc, acc ≤ msbValN r acc ds := by
  induction ds with
  | nil => intro acc; simp [msbValN]
  | cons d t ih =>
    intro acc
    show acc ≤ msbValN r (acc * r + d) t
    have h1 : acc ≤ acc * r + d :=
      le_trans (Nat.le_mul_of_pos_right acc hr) (Nat.le_add_right _ _)
    exact le_trans h1 (ih (acc * r + d))

theorem msbValN_mono_map {α : Type} (r : Nat) (l : List α) (p q : α → Nat)
    (hpq : ∀ x ∈ l, p x ≤ q x) :
    ∀ acc acc2, acc ≤ acc2 → msbValN r acc (l.map p) ≤ msbValN r acc2 (l.map q) := by
  induction l with
  | nil => intro acc acc2 h; simpa [msbValN] using h
  | cons x t ih =>
    intro acc acc2 h
    show msbValN r (acc * r + p x) (t.map p) ≤ msbValN r (acc2 * r + q x) (t.map q)
    refine ih (fun y hy => hpq y (List.mem_cons_of_mem x hy)) _ _ ?_
    have hx : p x ≤ q x := hpq x (List.mem_cons_self x t)
    have : acc * r ≤ acc2 * r := Nat.mul_le_mul_right r h
    omega

/-! Helper lemmas: the digit-accumulation loop. -/

theorem parseDigits_sound {r max : Nat} (ds : List Char) :
    ∀ acc v, parseDigits r max ds acc = Except.ok v → acc < max →
      (∀ c ∈ ds, (charToDigit c r).isSome) ∧ v = msbValC r acc ds ∧ v < max := by
  induction ds with
  | nil =>
    intro acc v h hacc
    have hv : acc = v := by
      simpa [parseDigits] using h
    subst hv
    simpa [msbValC, msbValN] using hacc
  | cons c t ih =>
    intro acc v h hacc
    cases hc : charToDigit c r with
    | none =>
      simp only [parseDigits, hc] at h
      exact absurd h (by simp)
    | some d =>
      simp only [parseDigits, hc] at h
      by_cases hlt : acc * r + d < max
      · rw [if_pos hlt] at h
        obtain ⟨h1, h2, h3⟩ := ih (acc * r + d) v h hlt
        refine ⟨?_, ?_, h3⟩
        · intro x hx
          rcases List.mem_cons.mp hx with rfl | hx2
          · simp [hc]
          · exact h1 x hx2
        · rw [h2]
          simp [msbValC, msbValN, hc]
      · rw [if_neg hlt] at h
        exact absurd h (by simp)

theorem parseDigits_complete {r max : Nat} (hr : 1 ≤ r) (ds : List Char) :
    ∀ acc, (∀ c ∈ ds, (charToDigit c r).isSome) → msbValC r acc ds < max →
      parseDigits r max ds acc = Except.ok (msbValC r acc ds) := by
  induction ds with
  | nil => intro acc _ _; simp [parseDigits, msbValC, msbValN]
  | cons c t ih =>
    intro acc hdig hlt
    obtain ⟨d, hd⟩ := Option.isSome_iff_exists.mp (hdig c (List.mem_cons_self c t))
    have hval : msbValC r acc (c :: t) = msbValC r (acc * r + d) t := by
      simp [msbValC, msbValN, hd]
    have hstep : acc * r + d < max := by
      have h1 : acc * r + d ≤ msbValC r (acc * r + d) t := by
        have := le_msbValN r hr (t.map (fun x => (charToDigit x r).getD 0)) (acc * r + d)
        simpa [msbValC] using this
      rw [hval] at hlt
      omega
    simp only [parseDigits, hd, if_pos hstep, hval]
    exact ih (acc * r + d) (fun x hx => hdig x (List.mem_cons_of_mem c hx))
      (hval ▸ hlt)

/-! Helper lemmas: from_str_radix. -/

theorem fromStrRadix_cons (r max : Nat) (c : Char) (cs : List Char) :
    fromStrRadix r max (c :: cs) =
      (if (if c = '+' then cs else c :: cs).isEmpty = true then
        Except.error IntErrKind.empty
      else parseDigits r max (if c = '+' then cs else c :: cs) 0) := rfl

theorem fromStrRadix_eq_parse (r max : Nat) (s : List Char)
    (hne : signStrip s ≠ []) :
    fromStrRadix r max s = parseDigits r max (signStrip s) 0 := by
  match s with
  | [] => exact absurd rfl hne
  | c :: cs =>
    rw [fromStrRadix_cons]
    by_cases hplus : c = '+'
    · have hss : signStrip (c :: cs) = cs := by simp [signStrip, hplus]
      rw [hss] at hne ⊢
      rw [if_pos hplus, if_neg (by simpa [List.isEmpty_iff] using hne)]
    · have hss : signStrip (c :: cs) = c :: cs := by simp [signStrip, hplus]
      rw [hss]
      rw [if_neg hplus, if_neg (by simp)]

theorem fromStrRadix_sound {r max : Nat} {s : List Char} {v : Nat}
    (h : fromStrRadix r max s = Except.ok v) (hmax : 0 < max) :
    signStrip s ≠ [] ∧ (∀ c ∈ signStrip s, (charToDigit c r).isSome) ∧
      v = msbValC r 0 (signStrip s) ∧ v < max := by
  have hne : signStrip s ≠ [] := by
    match s with
    | [] => exact absurd h (by simp [fromStrRadix])
    | c :: cs =>
      intro he
      rw [fromStrRadix_cons] at h
      by_cases hplus : c = '+'
      · have hss : signStrip (c :: cs) = cs := by simp [signStrip, hplus]
        rw [hss] at he
        rw [if_pos hplus, he] at h
        exact absurd h (by simp)
      · have hss : signStrip (c :: cs) = c :: cs := by simp [signStrip, hplus]
        rw [hss] at he
        exact absurd he (by simp)
  rw [fromStrRadix_eq_parse r max s hne] at h
  obtain ⟨h1, h2, h3⟩ := parseDigits_sound (signStrip s) 0 v h hmax
  exact ⟨hne, h1, h2, h3⟩

theorem fromStrRadix_complete {r max : Nat} (hr : 1 ≤ r) (s : List Char)
    (hne : signStrip s ≠ [])
    (hdig : ∀ c ∈ signStrip s, (charToDigit c r).isSome)
    (hlt : msbValC r 0 (signStrip s) < max) :
    fromStrRadix r max s = Except.ok (msbValC r 0 (signStrip s)) := by
  rw [fromStrRadix_eq_parse r max s hne]
  exact parseDigits_complete hr (signStrip s) 0 hdig hlt

theorem msbValC_map_digitChar {r : Nat} (hr : r = 2 ∨ r = 10 ∨ r = 16)
    (ds : List Nat) (hds : ∀ d ∈ ds, d < r) :
    msbValC r 0 (ds.map digitChar) = msbValN r 0 ds := by
  unfold msbValC
  rw [List.map_map]
  congr 1
  conv_rhs => rw [← List.map_id ds]
  refine List.map_congr_left ?_
  intro d hd
  simp [Function.comp, charToDigit_digitChar hr (hds d hd)]

theorem fromStrRadix_map_digitChar {r max : Nat} (hr : r = 2 ∨ r = 10 ∨ r = 16)
    (ds : List Nat) (hne : ds ≠ []) (hds : ∀ d ∈ ds, d < r)
    (hlt : msbValN r 0 ds < max) :
    fromStrRadix r max (ds.map digitChar) = Except.ok (msbValN r 0 ds) := by
  have hr1 : 1 ≤ r := by rcases hr with h | h | h <;> omega
  have hr16 : r ≤ 16 := by rcases hr with h | h | h <;> omega
  have hss : signStrip (ds.map digitChar) = ds.map digitChar := by
    match ds with
    | [] => rfl
    | d :: t =>
      have : digitChar d ≠ '+' :=
        digitChar_ne_plus d (lt_of_lt_of_le (hds d (List.mem_cons_self d t)) hr16)
      simp [signStrip, this]
  have h := fromStrRadix_complete hr1 (ds.map digitChar)
    (by rw [hss]; simpa using hne)
    (by
      rw [hss]
      intro c hc
      obtain ⟨d, hd, rfl⟩ := List.mem_map.mp hc
      simp [charToDigit_digitChar hr (hds d hd)])
    (by rw [hss, msbValC_map_digitChar hr ds hds]; exact hlt)
  rw [hss, msbValC_map_digitChar hr ds hds] at h
  exact h

/-! Helper lemmas: little-endian digit lists. -/

theorem natDigitsLECore_zero (b fuel : Nat) : natDigitsLECore b fuel 0 = [] := by
  cases fuel <;> rfl

theorem natDigitsLECore_getD (b : Nat) :
    ∀ fuel n, n ≤ fuel → ∀ i,
      (natDigitsLECore b fuel n).getD i 0 = n / (b + 2) ^ i % (b + 2) := by
  intro fuel
  induction fuel with
  | zero =>
    intro n hn i
    have : n = 0 := Nat.le_zero.mp hn
    subst this
    simp [natDigitsLECore]
  | succ fuel ih =>
    intro n hn i
    match n with
    | 0 => simp [natDigitsLECore]
    | m + 1 =>
      have hrec : (m + 1) / (b + 2) ≤ fuel := by
        have h1 : (m + 1) / (b + 2) < m + 1 := Nat.div_lt_self (by omega) (by omega)
        omega
      show ((m + 1) % (b + 2) :: natDigitsLECore b fuel ((m + 1) / (b + 2))).getD i 0 = _
      cases i with
      | zero => simp
      | succ i =>
        have := ih ((m + 1) / (b + 2)) hrec i
        simp only [List.getD_cons_succ, this]
        rw [Nat.div_div_eq_div_mul, ← Nat.pow_succ']

theorem natDigitsLECore_length_le (b : Nat) :
    ∀ fuel n w, n ≤ fuel → n < (b + 2) ^ w →
      (natDigitsLECore b fuel n).length ≤ w := by
  intro fuel
  induction fuel with
  | zero =>
    intro n w hn _
    have : n = 0 := Nat.le_zero.mp hn
    subst this
    simp [natDigitsLECore]
  | succ fuel ih =>
    intro n w hn hw
    match n with
    | 0 => simp [natDigitsLECore]
    | m + 1 =>
      match w with
      | 0 => rw [Nat.pow_zero] at hw; omega
      | w + 1 =>
        have hrec : (m + 1) / (b + 2) ≤ fuel := by
          have h1 : (m + 1) / (b + 2) < m + 1 := Nat.div_lt_self (by omega) (by omega)
          omega
        have hdiv : (m + 1) / (b + 2) < (b + 2) ^ w := by
          rw [Nat.div_lt_iff_lt_mul (by omega)]
          calc m + 1 < (b + 2) ^ (w + 1) := hw
            _ = (b + 2) ^ w * (b + 2) := by ring
        have := ih ((m + 1) / (b + 2)) w hrec hdiv
        show ((m + 1) % (b + 2) :: natDigitsLECore b fuel ((m + 1) / (b + 2))).length ≤ w + 1
        simpa using this

theorem natDigitsLECore_lt (b : Nat) :
    ∀ fuel n, n ≤ fuel → n < (b + 2) ^ (natDigitsLECore b fuel n).length := by
  intro fuel
  induction fuel with
  | zero =>
    intro n hn
    have : n = 0 := Nat.le_zero.mp hn
    subst this
    simp [natDigitsLECore]
  | succ fuel ih =>
    intro n hn
    match n with
    | 0 => simp [natDigitsLECore]
    | m + 1 =>
      have hrec : (m + 1) / (b + 2) ≤ fuel := by
        have h1 : (m + 1) / (b + 2) < m + 1 := Nat.div_lt_self (by omega) (by omega)
        omega
      have ihd := ih ((m + 1) / (b + 2)) hrec
      show m + 1 < (b + 2) ^ ((m + 1) % (b + 2) :: natDigitsLECore b fuel ((m + 1) / (b + 2))).length
      rw [List.length_cons, Nat.pow_succ]
      have hmod := Nat.div_add_mod (m + 1) (b + 2)
      have hlt : (m + 1) % (b + 2) < b + 2 := Nat.mod_lt _ (by omega)
      calc m + 1 = (b + 2) * ((m + 1) / (b + 2)) + (m + 1) % (b + 2) := hmod.symm
    _ < (b + 2) * ((m + 1) / (b + 2)) + (b + 2) := by omega
    _ = ((m + 1) / (b + 2) + 1) * (b + 2) := by ring
    _ ≤ (b + 2) ^ (natDigitsLECore b fuel ((m + 1) / (b + 2))).length * (b + 2) :=
          Nat.mul_le_mul_right _ (by omega)

theorem natDigitsLECore_mem_lt (b : Nat) :
    ∀ fuel n d, d ∈ natDigitsLECore b fuel n → d < b + 2 := by
  intro fuel
  induction fuel with
  | zero => intro n d hd; simp [natDigitsLECore] at hd
  | succ fuel ih =>
    intro n d hd
    match n with
    | 0 => simp [natDigitsLECore] at hd
    | m + 1 =>
      rcases List.mem_cons.mp hd with rfl | hd2
      · exact Nat.mod_lt _ (by omega)
      · exact ih _ d hd2

theorem natDigitsLECore_msbVal (b : Nat) :
    ∀ fuel n, n ≤ fuel →
      msbValN (b + 2) 0 (natDigitsLECore b fuel n).reverse = n := by
  intro fuel
  induction fuel with
  | zero =>
    intro n hn
    have : n = 0 := Nat.le_zero.mp hn
    subst this
    simp [natDigitsLECore, msbValN]
  | succ fuel ih =>
    intro n hn
    match n with
    | 0 => simp [natDigitsLECore, msbValN]
    | m + 1 =>
      have hrec : (m + 1) / (b + 2) ≤ fuel := by
        have h1 : (m + 1) / (b + 2) < m + 1 := Nat.div_lt_self (by omega) (by omega)
        omega
      show msbValN (b + 2) 0
        (((m + 1) % (b + 2) :: natDigitsLECore b fuel ((m + 1) / (b + 2))).reverse) = m + 1
      rw [List.reverse_cons]
      unfold msbValN
      rw [List.foldl_append]
      have ihv := ih ((m + 1) / (b + 2)) hrec
      unfold msbValN at ihv
      rw [ihv]
      simp only [List.foldl_cons, List.foldl_nil]
      rw [Nat.mul_comm]
      exact Nat.div_add_mod (m + 1) (b + 2)

theorem minDigitsLE_length_le (b w n : Nat) (hw : 1 ≤ w) (hn : n < (b + 2) ^ w) :
    (minDigitsLE b n).length ≤ w := by
  unfold minDigitsLE
  by_cases h0 : n = 0
  · simp [h0]; omega
  · rw [if_neg h0]
    exact natDigitsLECore_length_le b n n w (le_refl n) hn

theorem minDigitsLE_getD (b n i : Nat) :
    (minDigitsLE b n).getD i 0 = n / (b + 2) ^ i % (b + 2) := by
  unfold minDigitsLE
  by_cases h0 : n = 0
  · subst h0
    cases i <;> simp
  · rw [if_neg h0]
    exact natDigitsLECore_getD b n n (le_refl n) i

theorem minDigitsLE_lt (b n : Nat) : n < (b + 2) ^ (minDigitsLE b n).length := by
  unfold minDigitsLE
  by_cases h0 : n = 0
  · subst h0; simp
  · rw [if_neg h0]
    exact natDigitsLECore_lt b n n (le_refl n)

theorem minDigitsLE_mem_lt (b n : Nat) :
    ∀ d ∈ minDigitsLE b n, d < b + 2 := by
  unfold minDigitsLE
  by_cases h0 : n = 0
  · subst h0; simp
  · rw [if_neg h0]
    exact fun d hd => natDigitsLECore_mem_lt b n n d hd

theorem minDigitsLE_ne_nil (b n : Nat) : minDigitsLE b n ≠ [] := by
  unfold minDigitsLE
  by_cases h0 : n = 0
  · simp [h0]
  · rw [if_neg h0]
    match n, h0 with
    | m + 1, _ =>
      show (m + 1) % (b + 2) :: natDigitsLECore b m ((m + 1) / (b + 2)) ≠ []
      simp

theorem minDigitsLE_msbVal (b n : Nat) :
    msbValN (b + 2) 0 (minDigitsLE b n).reverse = n := by
  unfold minDigitsLE
  by_cases h0 : n = 0
  · subst h0; simp [msbValN]
  · rw [if_neg h0]
    exact natDigitsLECore_msbVal b n n (le_refl n)

/-! Helper lemmas: padded digit lists and fmtPad. -/

theorem padLE_eq (b w n : Nat) (hw : 1 ≤ w) (hn : n < (b + 2) ^ w) :
    minDigitsLE b n ++ List.replicate (w - (minDigitsLE b n).length) 0 =
      (List.range w).map (fun i => n / (b + 2) ^ i % (b + 2)) := by
  have hL : (minDigitsLE b n).length ≤ w := minDigitsLE_length_le b w n hw hn
  apply List.ext_getElem
  · simp
    omega
  · intro i h1 h2
    have hiw : i < w := by simpa using h2
    have hrhs : ((List.range w).map (fun i => n / (b + 2) ^ i % (b + 2)))[i] =
        n / (b + 2) ^ i % (b + 2) := by
      simp
    rw [hrhs]
    by_cases hiL : i < (minDigitsLE b n).length
    · rw [List.getElem_append_left hiL]
      have := minDigitsLE_getD b n i
      rwa [List.getD_eq_getElem _ _ hiL] at this
    · push_neg at hiL
      rw [List.getElem_append_right hiL, List.getElem_replicate]
      have hsmall : n < (b + 2) ^ i :=
        lt_of_lt_of_le (minDigitsLE_lt b n) (Nat.pow_le_pow_right (by omega) hiL)
      rw [Nat.div_eq_of_lt hsmall]
      simp

theorem fmtPad_eq (b w n : Nat) (hw : 1 ≤ w) (hn : n < (b + 2) ^ w) :
    fmtPad b w n =
      ((List.range w).map (fun i => digitChar (n / (b + 2) ^ i % (b + 2)))).reverse := by
  have key := congrArg (fun l => (l.map digitChar).reverse) (padLE_eq b w n hw hn)
  simp only [List.map_append, List.reverse_append, List.map_replicate,
    List.reverse_replicate, List.map_map] at key
  have hdc0 : digitChar 0 = '0' := rfl
  rw [hdc0] at key
  unfold fmtPad
  simp only [List.length_map, List.length_reverse]
  rw [← List.map_reverse] at key
  simpa [Function.comp] using key

theorem msbValN_range_mod (base : Nat) :
    ∀ w n, msbValN base 0 (((List.range w).map (fun i => n / base ^ i % base)).reverse) =
      n % base ^ w := by
  intro w
  induction w with
  | zero => intro n; simp [msbValN, Nat.mod_one]
  | succ w ih =>
    intro n
    rw [List.range_succ, List.map_append, List.reverse_append]
    simp only [List.map_cons, List.map_nil, List.reverse_cons, List.reverse_nil,
      List.nil_append, List.singleton_append]
    show msbValN base (0 * base + n / base ^ w % base)
      (((List.range w).map (fun i => n / base ^ i % base)).reverse) = n % base ^ (w + 1)
    rw [msbValN_acc, ih n]
    have hlen : (((List.range w).map (fun i => n / base ^ i % base)).reverse).length = w := by
      simp
    rw [hlen]
    have : base ^ (w + 1) = base ^ w * base := by ring
    rw [this, Nat.mod_mul]
    ring

/-! Helper lemmas: testBit of msb-first binary digit lists. -/

theorem testBit_mul_pow_add (d k m i : Nat) (hm : m < 2 ^ k) :
    (d * 2 ^ k + m).testBit i = if i < k then m.testBit i else d.testBit (i - k) := by
  by_cases hik : i < k
  · rw [if_pos hik]
    simp only [Nat.testBit_to_div_mod]
    have hk : (2 : Nat) ^ k = 2 ^ i * 2 ^ (k - i) := by
      rw [← Nat.pow_add]
      congr 1
      omega
    have hstep : (d * 2 ^ k + m) / 2 ^ i = d * 2 ^ (k - i) + m / 2 ^ i := by
      rw [hk, ← Nat.mul_assoc, Nat.mul_comm d (2 ^ i), Nat.mul_assoc,
        Nat.mul_add_div (Nat.two_pow_pos i)]
    rw [hstep]
    have heven : d * 2 ^ (k - i) = 2 * (d * 2 ^ (k - i - 1)) := by
      have h2 : (2 : Nat) ^ (k - i) = 2 ^ (k - i - 1) * 2 := by
        rw [← Nat.pow_succ]
        congr 1
        omega
      rw [h2]
      ring
    rw [heven, Nat.mul_add_mod]
  · rw [if_neg hik]
    simp only [Nat.testBit_to_div_mod]
    have hi : (2 : Nat) ^ i = 2 ^ k * 2 ^ (i - k) := by
      rw [← Nat.pow_add]
      congr 1
      omega
    have hstep : (d * 2 ^ k + m) / 2 ^ i = d / 2 ^ (i - k) := by
      rw [hi, ← Nat.div_div_eq_div_mul, Nat.mul_comm d (2 ^ k),
        Nat.mul_add_div (Nat.two_pow_pos k), Nat.div_eq_of_lt hm, Nat.add_zero]
    rw [hstep]

theorem testBit_msbValN (ds : List Nat) (h2 : ∀ d ∈ ds, d < 2) (i : Nat) :
    (msbValN 2 0 ds).testBit i =
      (decide (i < ds.length) && decide (ds.getD (ds.length - 1 - i) 0 = 1)) := by
  induction ds with
  | nil => simp [msbValN]
  | cons d t ih =>
    have hd : d < 2 := h2 d (List.mem_cons_self d t)
    have ht : ∀ x ∈ t, x < 2 := fun x hx => h2 x (List.mem_cons_of_mem d hx)
    have hsplit : msbValN 2 0 (d :: t) = d * 2 ^ t.length + msbValN 2 0 t := by
      show msbValN 2 (0 * 2 + d) t = _
      rw [msbValN_acc]
      ring_nf
    rw [hsplit, testBit_mul_pow_add d t.length (msbValN 2 0 t) i (msbValN_lt 2 t ht)]
    by_cases hit : i < t.length
    · rw [if_pos hit, ih ht]
      have h2a : (d :: t).length - 1 - i = (t.length - 1 - i) + 1 := by
        simp only [List.length_cons]
        omega
      rw [h2a]
      simp only [List.getD_cons_succ, List.length_cons]
      rw [decide_eq_true hit, decide_eq_true (show i < t.length + 1 by omega)]
    · rw [if_neg hit]
      push_neg at hit
      have h2a : (d :: t).length - 1 - i = t.length - i := by
        simp only [List.length_cons]
        omega
      rw [h2a]
      by_cases hieq : i = t.length
      · subst hieq
        simp only [Nat.sub_self, List.getD_cons_zero]
        interval_cases d
        · simp
        · simp
      · have hgt : t.length < i := by omega
        have hd0 : d.testBit (i - t.length) = false := by
          have hge : i - t.length ≥ 1 := by omega
          interval_cases d
          · simp
          · rw [Nat.testBit_to_div_mod]
            have hz : 1 / 2 ^ (i - t.length) = 0 :=
              Nat.div_eq_of_lt (Nat.lt_of_lt_of_le (by omega)
                (Nat.pow_le_pow_right (by omega) hge))
            simp [hz]
        rw [hd0]
        simp only [List.length_cons]
        rw [decide_eq_false (show ¬ i < t.length + 1 by omega)]
        simp

/-! Helper lemmas: text transformations in the bitmap decoder. -/

theorem replaceChar_filter_eq_map (bs : List Char) :
    replaceChar 'x' '0' (replaceChar '0' '1' bs) = bs.map filterCharMap := by
  unfold replaceChar
  rw [List.map_map]
  refine List.map_congr_left ?_
  intro c _
  simp only [Function.comp, filterCharMap]
  by_cases h0 : c = '0'
  · simp [h0]
  · by_cases hx : c = 'x' <;> simp [h0, hx]

theorem replaceChar_value_eq_map (bs : List Char) :
    replaceChar 'x' '0' bs = bs.map valueCharMap := rfl

theorem strip0b_cons (l : List Char) : strip0b ('0' :: 'b' :: l) = l := by
  simp [strip0b]

theorem filterCharMap_eq_plus {c : Char} : filterCharMap c = '+' ↔ c = '+' := by
  unfold filterCharMap
  by_cases h0 : c = '0'
  · simp [h0]
  · by_cases hx : c = 'x' <;> simp [h0, hx]

theorem valueCharMap_eq_plus {c : Char} : valueCharMap c = '+' ↔ c = '+' := by
  unfold valueCharMap
  by_cases hx : c = 'x' <;> simp [hx]

theorem signStrip_map {g : Char → Char} (hg : ∀ c, g c = '+' ↔ c = '+')
    (bs : List Char) : signStrip (bs.map g) = (signStrip bs).map g := by
  match bs with
  | [] => rfl
  | c :: cs =>
    simp only [List.map_cons, signStrip, List.tail_cons]
    by_cases hc : c = '+'
    · rw [if_pos ((hg c).mpr hc), if_pos hc]
    · rw [if_neg (fun h => hc ((hg c).mp h)), if_neg hc]
      rfl

theorem filterCharMap_valid_digit {c : Char} (h : c = '0' ∨ c = '1' ∨ c = 'x') :
    charToDigit (filterCharMap c) 2 = some (if c = 'x' then 0 else 1) := by
  rcases h with rfl | rfl | rfl <;> decide

theorem valueCharMap_valid_digit {c : Char} (h : c = '0' ∨ c = '1' ∨ c = 'x') :
    charToDigit (valueCharMap c) 2 = some (if c = '1' then 1 else 0) := by
  rcases h with rfl | rfl | rfl <;> decide

theorem valid_of_filterCharMap_isSome {c : Char}
    (h : (charToDigit (filterCharMap c) 2).isSome = true) :
    c = '0' ∨ c = '1' ∨ c = 'x' := by
  rcases charToDigit_two_isSome h with h1 | h1 <;> unfold filterCharMap at h1
  · by_cases h0 : c = '0'
    · exact Or.inl h0
    · rw [if_neg h0] at h1
      by_cases hx : c = 'x'
      · exact Or.inr (Or.inr hx)
      · rw [if_neg hx] at h1
        exact Or.inl h1
  · by_cases h0 : c = '0'
    · exact Or.inl h0
    · rw [if_neg h0] at h1
      by_cases hx : c = 'x'
      · exact Or.inr (Or.inr hx)
      · rw [if_neg hx] at h1
        exact Or.inr (Or.inl h1)

/-! Helper lemmas: the serializer emission loop. -/

theorem emitBody_eq_zipWith (vs : List Char) (fs : List Char) :
    ∀ idx, idx + fs.length ≤ vs.length →
      emitBody vs idx fs =
        some (List.zipWith (fun fc vc => if fc = '1' then vc else 'x') fs (vs.drop idx)) := by
  induction fs with
  | nil => intro idx _; simp [emitBody]
  | cons c cs ih =>
    intro idx hlen
    have hidx : idx < vs.length := by
      simp only [List.length_cons] at hlen
      omega
    have hdrop : vs.drop idx = vs[idx] :: vs.drop (idx + 1) :=
      List.drop_eq_getElem_cons hidx
    have hget : vs[idx]? = some vs[idx] := List.getElem?_eq_getElem hidx
    have hrec := ih (idx + 1) (by simp only [List.length_cons] at hlen; omega)
    unfold emitBody
    rw [hdrop]
    by_cases hc : c = '1'
    · rw [if_pos hc, hget, hrec]
      simp [List.zipWith, hc]
    · rw [if_neg hc, hrec]
      simp [List.zipWith, hc]

theorem zipWith_map_same {α β γ δ : Type} (f : β → γ → δ) (p : α → β) (q : α → γ)
    (l : List α) :
    List.zipWith f (l.map p) (l.map q) = l.map (fun x => f (p x) (q x)) := by
  induction l with
  | nil => rfl
  | cons x t ih => simp [ih]

theorem filterCharMap_emit {fd vd : Nat} (hfd : fd < 2) (hvd : vd < 2) :
    filterCharMap (if digitChar fd = '1' then digitChar vd else 'x') =
      digitChar fd := by
  interval_cases fd <;> interval_cases vd <;> decide

theorem valueCharMap_emit {fd vd : Nat} (hfd : fd < 2) (hvd : vd < 2)
    (himp : fd = 0 → vd = 0) :
    valueCharMap (if digitChar fd = '1' then digitChar vd else 'x') =
      digitChar vd := by
  interval_cases fd
  · rw [himp rfl]; decide
  · interval_cases vd <;> decide

/-! Helper lemmas: decoding bitmap texts with only 0/1/x characters. -/

theorem msbValC_map_filterCharMap (ds : List Char)
    (h : ∀ c ∈ ds, c = '0' ∨ c = '1' ∨ c = 'x') :
    msbValC 2 0 (ds.map filterCharMap) =
      msbValN 2 0 (ds.map (fun c => if c = 'x' then 0 else 1)) := by
  unfold msbValC
  rw [List.map_map]
  congr 1
  refine List.map_congr_left ?_
  intro c hc
  simp only [Function.comp]
  rw [filterCharMap_valid_digit (h c hc)]
  rfl

theorem msbValC_map_valueCharMap (ds : List Char)
    (h : ∀ c ∈ ds, c = '0' ∨ c = '1' ∨ c = 'x') :
    msbValC 2 0 (ds.map valueCharMap) =
      msbValN 2 0 (ds.map (fun c => if c = '1' then 1 else 0)) := by
  unfold msbValC
  rw [List.map_map]
  congr 1
  refine List.map_congr_left ?_
  intro c hc
  simp only [Function.comp]
  rw [valueCharMap_valid_digit (h c hc)]
  rfl

/-- Inversion of a successful bitmap decode: the post-strip, post-sign text
is a nonempty run of 0/1/x characters, and the fields are the msb-first
binary values of the induced filter/value digit runs, both below 2 ^ 64. -/
theorem deserialize_u64_bitmap_ok_inv {s : List Char} {fv : RegisterValueFilter}
    (h : deserialize_u64_bitmap s = Except.ok fv) :
    signStrip (strip0b s) ≠ [] ∧
    (∀ c ∈ signStrip (strip0b s), c = '0' ∨ c = '1' ∨ c = 'x') ∧
    fv.filter =
      msbValN 2 0 ((signStrip (strip0b s)).map (fun c => if c = 'x' then 0 else 1)) ∧
    fv.value =
      msbValN 2 0 ((signStrip (strip0b s)).map (fun c => if c = '1' then 1 else 0)) ∧
    fv.filter < 2 ^ 64 ∧ fv.value < 2 ^ 64 := by
  simp only [deserialize_u64_bitmap, replaceChar_filter_eq_map] at h
  simp only [replaceChar_value_eq_map] at h
  cases hf : fromStrRadix 2 (2 ^ 64) ((strip0b s).map filterCharMap) with
  | error e =>
    simp only [hf] at h
    exact absurd h (by simp)
  | ok f =>
    simp only [hf] at h
    cases hv : fromStrRadix 2 (2 ^ 64) ((strip0b s).map valueCharMap) with
    | error e =>
      simp only [hv] at h
      exact absurd h (by simp)
    | ok v =>
      simp only [hv] at h
      have hfv : fv = ⟨f, v⟩ := by
        cases h
        rfl
      subst hfv
      obtain ⟨hne1, hdig1, hval1, hlt1⟩ := fromStrRadix_sound hf (by positivity)
      obtain ⟨hne2, hdig2, hval2, hlt2⟩ := fromStrRadix_sound hv (by positivity)
      rw [signStrip_map (fun c => filterCharMap_eq_plus) (strip0b s)] at hne1 hdig1 hval1
      rw [signStrip_map (fun c => valueCharMap_eq_plus) (strip0b s)] at hval2
      have hvalid : ∀ c ∈ signStrip (strip0b s), c = '0' ∨ c = '1' ∨ c = 'x' := by
        intro c hc
        exact valid_of_filterCharMap_isSome (hdig1 (filterCharMap c) (List.mem_map_of_mem _ hc))
      refine ⟨?_, hvalid, ?_, ?_, hlt1, hlt2⟩
      · intro he
        rw [he] at hne1
        exact hne1 rfl
      · rw [hval1, msbValC_map_filterCharMap _ hvalid]
      · rw [hval2, msbValC_map_valueCharMap _ hvalid]

/-! The general encode/decode round trip. -/

theorem bitmap_roundtrip_general (w : Nat) (hw : 1 ≤ w) (hw64 : w ≤ 64)
    (fv : RegisterValueFilter) (hF : fv.filter < 2 ^ w) (hV : fv.value < 2 ^ w)
    (hinv : ∀ i, fv.value.testBit i = true → fv.filter.testBit i = true) :
    ∃ body, emitBody (fmtPad 0 w fv.value) 0 (fmtPad 0 w fv.filter) = some body ∧
      deserialize_u64_bitmap ('0' :: 'b' :: body) = Except.ok fv := by
  have hF2 : fv.filter < (0 + 2) ^ w := by rw [Nat.zero_add]; exact hF
  have hV2 : fv.value < (0 + 2) ^ w := by rw [Nat.zero_add]; exact hV
  have hfmtF := fmtPad_eq 0 w fv.filter hw hF2
  have hfmtV := fmtPad_eq 0 w fv.value hw hV2
  simp only [Nat.zero_add] at hfmtF hfmtV
  have hfdig2 : ∀ i, fv.filter / 2 ^ i % 2 < 2 := fun i => Nat.mod_lt _ (by omega)
  have hvdig2 : ∀ i, fv.value / 2 ^ i % 2 < 2 := fun i => Nat.mod_lt _ (by omega)
  have himp : ∀ i, fv.filter / 2 ^ i % 2 = 0 → fv.value / 2 ^ i % 2 = 0 := by
    intro i h0
    by_contra hne
    have hv1 : fv.value / 2 ^ i % 2 = 1 := by have := hvdig2 i; omega
    have htv : fv.value.testBit i = true := by
      rw [Nat.testBit_to_div_mod]
      exact decide_eq_true hv1
    have htf := hinv i htv
    rw [Nat.testBit_to_div_mod] at htf
    have := of_decide_eq_true htf
    omega
  have hlenV : (fmtPad 0 w fv.value).length = w := by
    rw [hfmtV]
    simp
  have hlenF : (fmtPad 0 w fv.filter).length = w := by
    rw [hfmtF]
    simp
  have hzip := emitBody_eq_zipWith (fmtPad 0 w fv.value) (fmtPad 0 w fv.filter) 0
    (by rw [hlenV, hlenF]; omega)
  rw [List.drop_zero] at hzip
  refine ⟨_, hzip, ?_⟩
  have hbody2 : List.zipWith (fun fc vc => if fc = '1' then vc else 'x')
      (fmtPad 0 w fv.filter) (fmtPad 0 w fv.value) =
      (List.range w).reverse.map
        (fun i => if digitChar (fv.filter / 2 ^ i % 2) = '1' then
          digitChar (fv.value / 2 ^ i % 2) else 'x') := by
    rw [hfmtF, hfmtV, ← List.map_reverse, ← List.map_reverse, zipWith_map_same]
  have hmapF : (List.zipWith (fun fc vc => if fc = '1' then vc else 'x')
      (fmtPad 0 w fv.filter) (fmtPad 0 w fv.value)).map filterCharMap =
      (((List.range w).map (fun i => fv.filter / 2 ^ i % 2)).reverse).map digitChar := by
    rw [hbody2, List.map_map, ← List.map_reverse, List.map_map]
    refine List.map_congr_left ?_
    intro i _
    simp only [Function.comp]
    exact filterCharMap_emit (hfdig2 i) (hvdig2 i)
  have hmapV : (List.zipWith (fun fc vc => if fc = '1' then vc else 'x')
      (fmtPad 0 w fv.filter) (fmtPad 0 w fv.value)).map valueCharMap =
      (((List.range w).map (fun i => fv.value / 2 ^ i % 2)).reverse).map digitChar := by
    rw [hbody2, List.map_map, ← List.map_reverse, List.map_map]
    refine List.map_congr_left ?_
    intro i _
    simp only [Function.comp]
    exact valueCharMap_emit (hfdig2 i) (hvdig2 i) (himp i)
  have hmsbF : msbValN 2 0 (((List.range w).map (fun i => fv.filter / 2 ^ i % 2)).reverse) =
      fv.filter := by
    have := msbValN_range_mod 2 w fv.filter
    rwa [Nat.mod_eq_of_lt hF] at this
  have hmsbV : msbValN 2 0 (((List.range w).map (fun i => fv.value / 2 ^ i % 2)).reverse) =
      fv.value := by
    have := msbValN_range_mod 2 w fv.value
    rwa [Nat.mod_eq_of_lt hV] at this
  have hneF : ((List.range w).map (fun i => fv.filter / 2 ^ i % 2)).reverse ≠ [] := by
    intro he
    have h0 : (((List.range w).map (fun i => fv.filter / 2 ^ i % 2)).reverse).length = 0 := by
      rw [he]
      rfl
    simp at h0
    omega
  have hneV : ((List.range w).map (fun i => fv.value / 2 ^ i % 2)).reverse ≠ [] := by
    intro he
    have h0 : (((List.range w).map (fun i => fv.value / 2 ^ i % 2)).reverse).length = 0 := by
      rw [he]
      rfl
    simp at h0
    omega
  have hmemF : ∀ d ∈ ((List.range w).map (fun i => fv.filter / 2 ^ i % 2)).reverse, d < 2 := by
    intro d hd
    rw [List.mem_reverse] at hd
    obtain ⟨i, _, rfl⟩ := List.mem_map.mp hd
    exact hfdig2 i
  have hmemV : ∀ d ∈ ((List.range w).map (fun i => fv.value / 2 ^ i % 2)).reverse, d < 2 := by
    intro d hd
    rw [List.mem_reverse] at hd
    obtain ⟨i, _, rfl⟩ := List.mem_map.mp hd
    exact hvdig2 i
  have hboundF :
      msbValN 2 0 (((List.range w).map (fun i => fv.filter / 2 ^ i % 2)).reverse) < 2 ^ 64 := by
    rw [hmsbF]
    exact lt_of_lt_of_le hF (Nat.pow_le_pow_right (by omega) hw64)
  have hboundV :
      msbValN 2 0 (((List.range w).map (fun i => fv.value / 2 ^ i % 2)).reverse) < 2 ^ 64 := by
    rw [hmsbV]
    exact lt_of_lt_of_le hV (Nat.pow_le_pow_right (by omega) hw64)
  have parseF := fromStrRadix_map_digitChar (Or.inl rfl) _ hneF hmemF hboundF
  have parseV := fromStrRadix_map_digitChar (Or.inl rfl) _ hneV hmemV hboundV
  rw [hmsbF] at parseF
  rw [hmsbV] at parseV
  simp only [deserialize_u64_bitmap, strip0b_cons, replaceChar_filter_eq_map]
  simp only [replaceChar_value_eq_map, hmapF, hmapV, parseF, parseV]

theorem serializeBody_length (w : Nat) (hw : 1 ≤ w) (fv : RegisterValueFilter)
    (hF : fv.filter < 2 ^ w) (hV : fv.value < 2 ^ w) :
    ∃ body, emitBody (fmtPad 0 w fv.value) 0 (fmtPad 0 w fv.filter) = some body ∧
      body.length = w := by
  have hF2 : fv.filter < (0 + 2) ^ w := by rw [Nat.zero_add]; exact hF
  have hV2 : fv.value < (0 + 2) ^ w := by rw [Nat.zero_add]; exact hV
  have hlenF : (fmtPad 0 w fv.filter).length = w := by
    rw [fmtPad_eq 0 w fv.filter hw hF2]
    simp
  have hlenV : (fmtPad 0 w fv.value).length = w := by
    rw [fmtPad_eq 0 w fv.value hw hV2]
    simp
  have hzip := emitBody_eq_zipWith (fmtPad 0 w fv.value) (fmtPad 0 w fv.filter) 0
    (by rw [hlenV, hlenF]; omega)
  rw [List.drop_zero] at hzip
  refine ⟨_, hzip, ?_⟩
  rw [List.length_zipWith, hlenV, hlenF]
  omega

/-- C1 (as amended): for a RegisterValueFilter satisfying the data-model
invariant (every bit of `value` also set in `filter`) whose fields use only
the low `w` bits, the width-`w` serializer succeeds and the shared bitmap
deserializer maps its output back to exactly the input, for both `w = 32`
and `w = 64`. -/
theorem C1_bitmap_roundtrip (fv : RegisterValueFilter)
    (hinv : fv.value &&& fv.filter = fv.value) :
    (fv.filter < 2 ^ 32 → fv.value < 2 ^ 32 →
      ∃ s, serialize_u32_bitmap fv = some s ∧
        deserialize_u64_bitmap s = Except.ok fv) ∧
    (fv.filter < 2 ^ 64 → fv.value < 2 ^ 64 →
      ∃ s, serialize_u64_bitmap fv = some s ∧
        deserialize_u64_bitmap s = Except.ok fv) := by
  have hbit : ∀ i, fv.value.testBit i = true → fv.filter.testBit i = true := by
    intro i hv
    have h1 := congrArg (fun n => n.testBit i) hinv
    simp only [Nat.testBit_and] at h1
    rw [hv] at h1
    simpa using h1.symm
  constructor
  · intro hF hV
    obtain ⟨body, hb, hd⟩ :=
      bitmap_roundtrip_general 32 (by omega) (by omega) fv hF hV hbit
    refine ⟨'0' :: 'b' :: body, ?_, hd⟩
    simp [serialize_u32_bitmap, hb]
  · intro hF hV
    obtain ⟨body, hb, hd⟩ :=
      bitmap_roundtrip_general 64 (by omega) (by omega) fv hF hV hbit
    refine ⟨'0' :: 'b' :: body, ?_, hd⟩
    simp [serialize_u64_bitmap, hb]

/-- C1 witness: the round trip evaluated at the filter/value pair (6, 4)
through the 32-bit serializer. -/
theorem C1_bitmap_roundtrip_witness :
    ((RegisterValueFilter.mk 6 4).value &&& (RegisterValueFilter.mk 6 4).filter =
      (RegisterValueFilter.mk 6 4).value) ∧
    ((RegisterValueFilter.mk 6 4).filter < 2 ^ 32) ∧
    (∃ s, serialize_u32_bitmap ⟨6, 4⟩ = some s ∧
      deserialize_u64_bitmap s = Except.ok ⟨6, 4⟩) :=
  ⟨by decide, by decide,
    (C1_bitmap_roundtrip ⟨6, 4⟩ (by decide)).1 (by decide) (by decide)⟩

/-- C1 counterexample: the claim as stated quantifies over every pair with
low bits only and no invariant; the pair (filter 0, value 1) encodes to 32
wildcards and decodes to (0, 0), not to itself. -/
theorem C1_bitmap_roundtrip_counterexample :
    serialize_u32_bitmap ⟨0, 1⟩ = some ('0' :: 'b' :: List.replicate 32 'x') ∧
    deserialize_u64_bitmap ('0' :: 'b' :: List.replicate 32 'x') =
      Except.ok ⟨0, 0⟩ ∧
    RegisterValueFilter.mk 0 0 ≠ ⟨0, 1⟩ := by
  exact ⟨by rfl, by rfl, by decide⟩

/-- C3 (as amended): for every bitmap text whose post-strip characters all
lie in 0/1/x, provided the remainder is nonempty and at most 64 characters
long, the decoder succeeds, and position `i` (msb first) carries filter
bit 1 exactly for characters 0/1 and value bit equal to the literal for
0/1 (0 for x); decoding "010x" yields filter 0b1110 and value 0b0100. -/
theorem C3_bitmap_decode_positions :
    (∀ s : List Char, strip0b s ≠ [] → (strip0b s).length ≤ 64 →
      (∀ c ∈ strip0b s, c = '0' ∨ c = '1' ∨ c = 'x') →
      ∃ fv, deserialize_u64_bitmap s = Except.ok fv ∧
        ∀ i c, (strip0b s)[i]? = some c →
          (fv.filter.testBit ((strip0b s).length - 1 - i) =
            decide (c = '0' ∨ c = '1')) ∧
          (fv.value.testBit ((strip0b s).length - 1 - i) = decide (c = '1'))) ∧
    deserialize_u64_bitmap ['0', '1', '0', 'x'] = Except.ok ⟨14, 4⟩ := by
  constructor
  · intro s hne hlen hvalid
    have hnoplus : signStrip (strip0b s) = strip0b s := by
      match hbs : strip0b s with
      | [] => rfl
      | c :: t =>
        have hc : c = '0' ∨ c = '1' ∨ c = 'x' := by
          apply hvalid
          rw [hbs]
          exact List.mem_cons_self c t
        have : c ≠ '+' := by rcases hc with rfl | rfl | rfl <;> decide
        simp [signStrip, this]
    have hmemF : ∀ x ∈ (strip0b s).map filterCharMap, (charToDigit x 2).isSome := by
      intro x hx
      obtain ⟨c, hc, rfl⟩ := List.mem_map.mp hx
      rw [filterCharMap_valid_digit (hvalid c hc)]
      rfl
    have hmemV : ∀ x ∈ (strip0b s).map valueCharMap, (charToDigit x 2).isSome := by
      intro x hx
      obtain ⟨c, hc, rfl⟩ := List.mem_map.mp hx
      rw [valueCharMap_valid_digit (hvalid c hc)]
      rfl
    have hdigF : ∀ d ∈ (strip0b s).map (fun c => if c = 'x' then 0 else 1), d < 2 := by
      intro d hd
      obtain ⟨c, _, rfl⟩ := List.mem_map.mp hd
      by_cases hx : c = 'x' <;> simp [hx]
    have hdigV : ∀ d ∈ (strip0b s).map (fun c => if c = '1' then 1 else 0), d < 2 := by
      intro d hd
      obtain ⟨c, _, rfl⟩ := List.mem_map.mp hd
      by_cases hx : c = '1' <;> simp [hx]
    have hboundF : msbValN 2 0 ((strip0b s).map (fun c => if c = 'x' then 0 else 1)) <
        2 ^ 64 := by
      have h1 := msbValN_lt 2 _ hdigF
      have h2 : ((strip0b s).map (fun c => if c = 'x' then 0 else 1)).length ≤ 64 := by
        rw [List.length_map]
        exact hlen
      exact lt_of_lt_of_le h1 (Nat.pow_le_pow_right (by omega) h2)
    have hboundV : msbValN 2 0 ((strip0b s).map (fun c => if c = '1' then 1 else 0)) <
        2 ^ 64 := by
      have h1 := msbValN_lt 2 _ hdigV
      have h2 : ((strip0b s).map (fun c => if c = '1' then 1 else 0)).length ≤ 64 := by
        rw [List.length_map]
        exact hlen
      exact lt_of_lt_of_le h1 (Nat.pow_le_pow_right (by omega) h2)
    have hssF : signStrip ((strip0b s).map filterCharMap) =
        (strip0b s).map filterCharMap := by
      rw [signStrip_map (fun c => filterCharMap_eq_plus) (strip0b s), hnoplus]
    have hssV : signStrip ((strip0b s).map valueCharMap) =
        (strip0b s).map valueCharMap := by
      rw [signStrip_map (fun c => valueCharMap_eq_plus) (strip0b s), hnoplus]
    have hparseF : fromStrRadix 2 (2 ^ 64) ((strip0b s).map filterCharMap) =
        Except.ok (msbValN 2 0 ((strip0b s).map (fun c => if c = 'x' then 0 else 1))) := by
      have h := fromStrRadix_complete (show (1 : Nat) <= 2 by omega) ((strip0b s).map filterCharMap)
        (by rw [hssF]; simpa using hne)
        (by rw [hssF]; exact hmemF)
        (by rw [hssF, msbValC_map_filterCharMap _ hvalid]; exact hboundF)
      rwa [hssF, msbValC_map_filterCharMap _ hvalid] at h
    have hparseV : fromStrRadix 2 (2 ^ 64) ((strip0b s).map valueCharMap) =
        Except.ok (msbValN 2 0 ((strip0b s).map (fun c => if c = '1' then 1 else 0))) := by
      have h := fromStrRadix_complete (show (1 : Nat) <= 2 by omega) ((strip0b s).map valueCharMap)
        (by rw [hssV]; simpa using hne)
        (by rw [hssV]; exact hmemV)
        (by rw [hssV, msbValC_map_valueCharMap _ hvalid]; exact hboundV)
      rwa [hssV, msbValC_map_valueCharMap _ hvalid] at h
    refine ⟨⟨msbValN 2 0 ((strip0b s).map (fun c => if c = 'x' then 0 else 1)),
      msbValN 2 0 ((strip0b s).map (fun c => if c = '1' then 1 else 0))⟩, ?_, ?_⟩
    · simp only [deserialize_u64_bitmap, replaceChar_filter_eq_map]
      simp only [replaceChar_value_eq_map, hparseF, hparseV]
    · intro i c hic
      obtain ⟨hilt, hgetc⟩ := List.getElem?_eq_some_iff.mp hic
      have hcvalid : c = '0' ∨ c = '1' ∨ c = 'x' := by
        apply hvalid
        rw [← hgetc]
        exact List.getElem_mem hilt
      have hj : (strip0b s).length - 1 - i < (strip0b s).length := by omega
      have hji : (strip0b s).length - 1 - ((strip0b s).length - 1 - i) = i := by omega
      constructor
      · rw [testBit_msbValN _ hdigF]
        rw [List.length_map, hji]
        rw [decide_eq_true hj]
        have hgd : ((strip0b s).map (fun c => if c = 'x' then 0 else 1)).getD i 0 =
            (if c = 'x' then 0 else 1) := by
          rw [List.getD_eq_getElem _ _ (by rw [List.length_map]; exact hilt)]
          rw [List.getElem_map]
          rw [hgetc]
        rw [hgd]
        rcases hcvalid with rfl | rfl | rfl <;> decide
      · rw [testBit_msbValN _ hdigV]
        rw [List.length_map, hji]
        rw [decide_eq_true hj]
        have hgd : ((strip0b s).map (fun c => if c = '1' then 1 else 0)).getD i 0 =
            (if c = '1' then 1 else 0) := by
          rw [List.getD_eq_getElem _ _ (by rw [List.length_map]; exact hilt)]
          rw [List.getElem_map]
          rw [hgetc]
        rw [hgd]
        rcases hcvalid with rfl | rfl | rfl <;> decide
  · rfl

/-- C3 witness: the amended statement applied to the text "10x". -/
theorem C3_bitmap_decode_positions_witness :
    strip0b ['1', '0', 'x'] ≠ [] ∧
    ∃ fv, deserialize_u64_bitmap ['1', '0', 'x'] = Except.ok fv ∧
      ∀ i c, (strip0b ['1', '0', 'x'])[i]? = some c →
        (fv.filter.testBit ((strip0b ['1', '0', 'x']).length - 1 - i) =
          decide (c = '0' ∨ c = '1')) ∧
        (fv.value.testBit ((strip0b ['1', '0', 'x']).length - 1 - i) =
          decide (c = '1')) :=
  ⟨by decide,
    C3_bitmap_decode_positions.1 ['1', '0', 'x'] (by decide) (by decide) (by decide)⟩

/-- C3 counterexample: the text "0b" strips to the empty remainder, whose
characters all (vacuously) lie in 0/1/x, yet the decoder fails instead of
producing a filter/value pair. -/
theorem C3_bitmap_decode_positions_counterexample :
    deserialize_u64_bitmap ['0', 'b'] = Except.error ⟨[], IntErrKind.empty⟩ := by
  rfl

/-- C5 (as amended): the bitmap decoder succeeds iff, after stripping an
optional leading 0b and an optional leading +, the remaining text is
nonempty, all its characters lie in 0/1/x, and the induced filter number
fits in 64 bits; every failure carries the post-0b-strip text in a
BitmapParseError. -/
theorem C5_bitmap_error_iff (s : List Char) :
    ((∃ fv, deserialize_u64_bitmap s = Except.ok fv) ↔
      (signStrip (strip0b s) ≠ [] ∧
        (∀ c ∈ signStrip (strip0b s), c = '0' ∨ c = '1' ∨ c = 'x') ∧
        msbValN 2 0 ((signStrip (strip0b s)).map (fun c => if c = 'x' then 0 else 1)) <
          2 ^ 64)) ∧
    (∀ e, deserialize_u64_bitmap s = Except.error e → e.text = strip0b s) := by
  constructor
  · constructor
    · rintro ⟨fv, hfv⟩
      obtain ⟨h1, h2, h3, _, h5, _⟩ := deserialize_u64_bitmap_ok_inv hfv
      exact ⟨h1, h2, by rw [← h3]; exact h5⟩
    · rintro ⟨hne, hvalid, hbound⟩
      have hssF : signStrip ((strip0b s).map filterCharMap) =
          (signStrip (strip0b s)).map filterCharMap :=
        signStrip_map (fun c => filterCharMap_eq_plus) (strip0b s)
      have hssV : signStrip ((strip0b s).map valueCharMap) =
          (signStrip (strip0b s)).map valueCharMap :=
        signStrip_map (fun c => valueCharMap_eq_plus) (strip0b s)
      have hparseF : fromStrRadix 2 (2 ^ 64) ((strip0b s).map filterCharMap) =
          Except.ok (msbValN 2 0
            ((signStrip (strip0b s)).map (fun c => if c = 'x' then 0 else 1))) := by
        have h := fromStrRadix_complete (show (1 : Nat) <= 2 by omega) ((strip0b s).map filterCharMap)
          (by rw [hssF]; simpa using hne)
          (by
            rw [hssF]
            intro x hx
            obtain ⟨c, hc, rfl⟩ := List.mem_map.mp hx
            rw [filterCharMap_valid_digit (hvalid c hc)]
            rfl)
          (by rw [hssF, msbValC_map_filterCharMap _ hvalid]; exact hbound)
        rwa [hssF, msbValC_map_filterCharMap _ hvalid] at h
      have hboundV : msbValN 2 0
          ((signStrip (strip0b s)).map (fun c => if c = '1' then 1 else 0)) < 2 ^ 64 := by
        refine lt_of_le_of_lt ?_ hbound
        refine msbValN_mono_map 2 (signStrip (strip0b s)) _ _ ?_ 0 0 (le_refl 0)
        intro c hc
        rcases hvalid c hc with rfl | rfl | rfl <;> decide
      have hparseV : fromStrRadix 2 (2 ^ 64) ((strip0b s).map valueCharMap) =
          Except.ok (msbValN 2 0
            ((signStrip (strip0b s)).map (fun c => if c = '1' then 1 else 0))) := by
        have h := fromStrRadix_complete (show (1 : Nat) <= 2 by omega) ((strip0b s).map valueCharMap)
          (by rw [hssV]; simpa using hne)
          (by
            rw [hssV]
            intro x hx
            obtain ⟨c, hc, rfl⟩ := List.mem_map.mp hx
            rw [valueCharMap_valid_digit (hvalid c hc)]
            rfl)
          (by rw [hssV, msbValC_map_valueCharMap _ hvalid]; exact hboundV)
        rwa [hssV, msbValC_map_valueCharMap _ hvalid] at h
      refine ⟨⟨msbValN 2 0
          ((signStrip (strip0b s)).map (fun c => if c = 'x' then 0 else 1)),
        msbValN 2 0
          ((signStrip (strip0b s)).map (fun c => if c = '1' then 1 else 0))⟩, ?_⟩
      simp only [deserialize_u64_bitmap, replaceChar_filter_eq_map]
      simp only [replaceChar_value_eq_map, hparseF, hparseV]
  · intro e he
    simp only [deserialize_u64_bitmap, replaceChar_filter_eq_map] at he
    simp only [replaceChar_value_eq_map] at he
    cases hf : fromStrRadix 2 (2 ^ 64) ((strip0b s).map filterCharMap) with
    | error e1 =>
      simp only [hf] at he
      cases he
      rfl
    | ok f =>
      simp only [hf] at he
      cases hv : fromStrRadix 2 (2 ^ 64) ((strip0b s).map valueCharMap) with
      | error e2 =>
        simp only [hv] at he
        cases he
        rfl
      | ok v =>
        simp only [hv] at he
        exact absurd he (by simp)

/-- C5 witness: the error-side of the characterization applied to the
one-character text "?". -/
theorem C5_bitmap_error_iff_witness :
    (BitmapErr.mk ['?'] IntErrKind.invalidDigit).text = strip0b ['?'] :=
  (C5_bitmap_error_iff ['?']).2 ⟨['?'], IntErrKind.invalidDigit⟩ (by rfl)

/-- C5 counterexample: the claim as stated fails in both directions — the
empty text has no character outside 0/1/x yet the decoder fails; the text
"+10" contains a character outside 0/1/x yet decodes successfully; and 65
zeros are all inside 0/1/x yet overflow the 64-bit filter. -/
theorem C5_bitmap_error_iff_counterexample :
    deserialize_u64_bitmap [] = Except.error ⟨[], IntErrKind.empty⟩ ∧
    deserialize_u64_bitmap ['+', '1', '0'] = Except.ok ⟨3, 2⟩ ∧
    deserialize_u64_bitmap (List.replicate 65 '0') =
      Except.error ⟨List.replicate 65 '0', IntErrKind.posOverflow⟩ := by
  exact ⟨by rfl, by rfl, by rfl⟩

/-- C6 (as amended): for every RegisterValueFilter whose fields fit in the
encoding width, the 32-bit encoding is exactly 34 characters and the
64-bit encoding exactly 66 characters (the 0b prefix plus the width). -/
theorem C6_encoding_lengths (fv : RegisterValueFilter) :
    (fv.filter < 2 ^ 32 → fv.value < 2 ^ 32 →
      ∃ s, serialize_u32_bitmap fv = some s ∧ s.length = 34) ∧
    (fv.filter < 2 ^ 64 → fv.value < 2 ^ 64 →
      ∃ s, serialize_u64_bitmap fv = some s ∧ s.length = 66) := by
  constructor
  · intro hF hV
    obtain ⟨body, hb, hlen⟩ := serializeBody_length 32 (by omega) fv hF hV
    refine ⟨'0' :: 'b' :: body, ?_, ?_⟩
    · simp [serialize_u32_bitmap, hb]
    · simp [hlen]
  · intro hF hV
    obtain ⟨body, hb, hlen⟩ := serializeBody_length 64 (by omega) fv hF hV
    refine ⟨'0' :: 'b' :: body, ?_, ?_⟩
    · simp [serialize_u64_bitmap, hb]
    · simp [hlen]

/-- C6 witness: the lengths evaluated at the filter/value pair (5, 1). -/
theorem C6_encoding_lengths_witness :
    ((RegisterValueFilter.mk 5 1).filter < 2 ^ 32) ∧
    (∃ s, serialize_u32_bitmap ⟨5, 1⟩ = some s ∧ s.length = 34) :=
  ⟨by decide, (C6_encoding_lengths ⟨5, 1⟩).1 (by decide) (by decide)⟩

/-- C6 counterexample: with filter and value 2 ^ 32 (a legal u64 pair) the
32-bit serializer emits 35 characters, not 34. -/
theorem C6_encoding_lengths_counterexample :
    serialize_u32_bitmap ⟨2 ^ 32, 2 ^ 32⟩ =
      some ('0' :: 'b' :: '1' :: List.replicate 32 'x') ∧
    ('0' :: 'b' :: '1' :: List.replicate 32 'x').length = 35 := by
  exact ⟨by decide, by decide⟩

/-- C7 (confirmed): every RegisterValueFilter produced by a successful
bitmap decode satisfies the invariant `value AND (NOT filter) == 0`, the
complement taken on 64 bits. -/
theorem C7_decode_invariant (s : List Char) (fv : RegisterValueFilter)
    (h : deserialize_u64_bitmap s = Except.ok fv) :
    fv.value &&& u64Not fv.filter = 0 := by
  obtain ⟨hne, hvalid, hfil, hval, hltF, hltV⟩ := deserialize_u64_bitmap_ok_inv h
  have hdigF : ∀ d ∈ (signStrip (strip0b s)).map (fun c => if c = 'x' then 0 else 1),
      d < 2 := by
    intro d hd
    obtain ⟨c, _, rfl⟩ := List.mem_map.mp hd
    by_cases hx : c = 'x' <;> simp [hx]
  have hdigV : ∀ d ∈ (signStrip (strip0b s)).map (fun c => if c = '1' then 1 else 0),
      d < 2 := by
    intro d hd
    obtain ⟨c, _, rfl⟩ := List.mem_map.mp hd
    by_cases hx : c = '1' <;> simp [hx]
  have htb : ∀ i, fv.value.testBit i = true → fv.filter.testBit i = true := by
    intro i hv
    rw [hval, testBit_msbValN _ hdigV] at hv
    rw [hfil, testBit_msbValN _ hdigF]
    obtain ⟨h1, h2⟩ := Bool.and_eq_true_iff.mp hv
    rw [List.length_map] at h1 h2 ⊢
    rw [h1]
    have hilt := of_decide_eq_true h1
    have hk : (signStrip (strip0b s)).length - 1 - i < (signStrip (strip0b s)).length := by
      omega
    have hcv : ((signStrip (strip0b s)).map (fun c => if c = '1' then 1 else 0)).getD
        ((signStrip (strip0b s)).length - 1 - i) 0 =
        (if (signStrip (strip0b s))[(signStrip (strip0b s)).length - 1 - i] = '1'
          then 1 else 0) := by
      rw [List.getD_eq_getElem _ _ (by rw [List.length_map]; exact hk), List.getElem_map]
    have hcf : ((signStrip (strip0b s)).map (fun c => if c = 'x' then 0 else 1)).getD
        ((signStrip (strip0b s)).length - 1 - i) 0 =
        (if (signStrip (strip0b s))[(signStrip (strip0b s)).length - 1 - i] = 'x'
          then 0 else 1) := by
      rw [List.getD_eq_getElem _ _ (by rw [List.length_map]; exact hk), List.getElem_map]
    rw [hcv] at h2
    rw [hcf]
    have hc1 : (signStrip (strip0b s))[(signStrip (strip0b s)).length - 1 - i] = '1' := by
      by_contra hcon
      rw [if_neg hcon] at h2
      exact absurd (of_decide_eq_true h2) (by omega)
    rw [hc1]
    simp
  apply Nat.eq_of_testBit_eq
  intro i
  rw [Nat.testBit_and, Nat.zero_testBit]
  unfold u64Not
  rw [Nat.testBit_xor, Nat.testBit_two_pow_sub_one]
  cases hvb : fv.value.testBit i with
  | false => simp
  | true =>
    have hflt := htb i hvb
    have hi64 : i < 64 := by
      by_contra hcon
      push_neg at hcon
      have : fv.value < 2 ^ i :=
        lt_of_lt_of_le hltV (Nat.pow_le_pow_right (by omega) hcon)
      rw [Nat.testBit_lt_two_pow this] at hvb
      exact absurd hvb (by simp)
    rw [hflt, decide_eq_true hi64]
    simp

/-- C7 witness: the invariant evaluated on the decode of "10x". -/
theorem C7_decode_invariant_witness :
    (RegisterValueFilter.mk 6 4).value &&& u64Not (RegisterValueFilter.mk 6 4).filter = 0 :=
  C7_decode_invariant ['1', '0', 'x'] ⟨6, 4⟩ (by rfl)

/-- C2 (confirmed): with a successful host vendor query, C3/T2/T2S/T2CL
fail with CpuVendorMismatched off Intel, T2A fails off AMD, T2CL fails with
InvalidCpuModel on pre-Cascade-Lake Intel, the legacy None sentinel always
fails with InvalidStaticCpuTemplate, and every remaining case returns the
owned catalog template of the id. -/
theorem C2_static_template_gating (host : HostFacts) (cat : TemplateCatalog)
    (v : List Char) (hv : host.vendorIdResult = Except.ok v) :
    (v ≠ VENDOR_ID_INTEL →
      get_cpu_template host cat (some (CpuTemplateType.Static StaticCpuTemplate.C3)) =
        Except.error GetCpuTemplateError.CpuVendorMismatched ∧
      get_cpu_template host cat (some (CpuTemplateType.Static StaticCpuTemplate.T2)) =
        Except.error GetCpuTemplateError.CpuVendorMismatched ∧
      get_cpu_template host cat (some (CpuTemplateType.Static StaticCpuTemplate.T2S)) =
        Except.error GetCpuTemplateError.CpuVendorMismatched ∧
      get_cpu_template host cat (some (CpuTemplateType.Static StaticCpuTemplate.T2CL)) =
        Except.error GetCpuTemplateError.CpuVendorMismatched) ∧
    (v ≠ VENDOR_ID_AMD →
      get_cpu_template host cat (some (CpuTemplateType.Static StaticCpuTemplate.T2A)) =
        Except.error GetCpuTemplateError.CpuVendorMismatched) ∧
    (v = VENDOR_ID_INTEL → host.isAtLeastCascadeLake = false →
      get_cpu_template host cat (some (CpuTemplateType.Static StaticCpuTemplate.T2CL)) =
        Except.error GetCpuTemplateError.InvalidCpuModel) ∧
    (get_cpu_template host cat (some (CpuTemplateType.Static StaticCpuTemplate.None)) =
      Except.error
        (GetCpuTemplateError.InvalidStaticCpuTemplate StaticCpuTemplate.None)) ∧
    (v = VENDOR_ID_INTEL →
      get_cpu_template host cat (some (CpuTemplateType.Static StaticCpuTemplate.C3)) =
        Except.ok (Cow.Owned cat.c3) ∧
      get_cpu_template host cat (some (CpuTemplateType.Static StaticCpuTemplate.T2)) =
        Except.ok (Cow.Owned cat.t2) ∧
      get_cpu_template host cat (some (CpuTemplateType.Static StaticCpuTemplate.T2S)) =
        Except.ok (Cow.Owned cat.t2s) ∧
      (host.isAtLeastCascadeLake = true →
        get_cpu_template host cat (some (CpuTemplateType.Static StaticCpuTemplate.T2CL)) =
          Except.ok (Cow.Owned cat.t2cl))) ∧
    (v = VENDOR_ID_AMD →
      get_cpu_template host cat (some (CpuTemplateType.Static StaticCpuTemplate.T2A)) =
        Except.ok (Cow.Owned cat.t2a)) := by
  refine ⟨?_, ?_, ?_, ?_, ?_, ?_⟩
  · intro hne
    refine ⟨?_, ?_, ?_, ?_⟩ <;> simp [get_cpu_template, hv, hne]
  · intro hne
    simp [get_cpu_template, hv, hne]
  · intro hintel hcl
    simp [get_cpu_template, hv, hintel, hcl]
  · simp [get_cpu_template, hv]
  · intro hintel
    refine ⟨?_, ?_, ?_, ?_⟩
    · simp [get_cpu_template, hv, hintel]
    · simp [get_cpu_template, hv, hintel]
    · simp [get_cpu_template, hv, hintel]
    · intro hcl
      simp [get_cpu_template, hv, hintel, hcl]
  · intro hamd
    have hne : v ≠ VENDOR_ID_INTEL := by
      rw [hamd]
      decide
    simp [get_cpu_template, hv, hamd]

/-- C2 witness: the gating evaluated on an Intel Cascade-Lake host with an
all-default catalog. -/
theorem C2_static_template_gating_witness :
    (HostFacts.mk (Except.ok VENDOR_ID_INTEL) true).vendorIdResult =
      Except.ok VENDOR_ID_INTEL ∧
    (VENDOR_ID_INTEL = VENDOR_ID_INTEL →
      get_cpu_template ⟨Except.ok VENDOR_ID_INTEL, true⟩
          ⟨CustomCpuTemplate.default, CustomCpuTemplate.default,
            CustomCpuTemplate.default, CustomCpuTemplate.default,
            CustomCpuTemplate.default⟩
          (some (CpuTemplateType.Static StaticCpuTemplate.C3)) =
        Except.ok (Cow.Owned CustomCpuTemplate.default) ∧
      get_cpu_template ⟨Except.ok VENDOR_ID_INTEL, true⟩
          ⟨CustomCpuTemplate.default, CustomCpuTemplate.default,
            CustomCpuTemplate.default, CustomCpuTemplate.default,
            CustomCpuTemplate.default⟩
          (some (CpuTemplateType.Static StaticCpuTemplate.T2)) =
        Except.ok (Cow.Owned CustomCpuTemplate.default) ∧
      get_cpu_template ⟨Except.ok VENDOR_ID_INTEL, true⟩
          ⟨CustomCpuTemplate.default, CustomCpuTemplate.default,
            CustomCpuTemplate.default, CustomCpuTemplate.default,
            CustomCpuTemplate.default⟩
          (some (CpuTemplateType.Static StaticCpuTemplate.T2S)) =
        Except.ok (Cow.Owned CustomCpuTemplate.default) ∧
      (((HostFacts.mk (Except.ok VENDOR_ID_INTEL) true).isAtLeastCascadeLake = true) →
        get_cpu_template ⟨Except.ok VENDOR_ID_INTEL, true⟩
            ⟨CustomCpuTemplate.default, CustomCpuTemplate.default,
              CustomCpuTemplate.default, CustomCpuTemplate.default,
              CustomCpuTemplate.default⟩
            (some (CpuTemplateType.Static StaticCpuTemplate.T2CL)) =
          Except.ok (Cow.Owned CustomCpuTemplate.default))) :=
  ⟨rfl,
    (C2_static_template_gating ⟨Except.ok VENDOR_ID_INTEL, true⟩
      ⟨CustomCpuTemplate.default, CustomCpuTemplate.default, CustomCpuTemplate.default,
        CustomCpuTemplate.default, CustomCpuTemplate.default⟩
      VENDOR_ID_INTEL rfl).2.2.2.2.1⟩

theorem splitAtByteOffset_two_ascii (c1 c2 : Char) (h1 : c1.utf8Size = 1)
    (h2 : c2.utf8Size = 1) (rest : List Char) :
    splitAtByteOffset 2 (c1 :: c2 :: rest) = some ([c1, c2], rest) := by
  simp [splitAtByteOffset, h1, h2]

theorem deserialize_u32_from_str_split (s pre rest : List Char)
    (h : 2 < rustByteLen s) (hs : splitAtByteOffset 2 s = some (pre, rest)) :
    deserialize_u32_from_str s =
      some ((if pre = ['0', 'b'] then fromStrRadix 2 (2 ^ 32) rest
        else if pre = ['0', 'x'] then fromStrRadix 16 (2 ^ 32) rest
        else fromStrRadix 10 (2 ^ 32) s).mapError
          (fun e => NumErr.asNumber s e)) := by
  unfold deserialize_u32_from_str
  rw [if_pos h, hs]

/-- C4 (as amended): the numeric parser dispatches on the first two bytes
(0b → base 2 remainder, 0x → base 16 remainder, otherwise base 10 whole;
byte length at most 2 → base 10 whole), provided byte offset 2 falls on a
character boundary; with the documented concrete examples. -/
theorem C4_numeric_parser_dispatch :
    (∀ rest : List Char, 2 < rustByteLen ('0' :: 'b' :: rest) →
      deserialize_u32_from_str ('0' :: 'b' :: rest) =
        some ((fromStrRadix 2 (2 ^ 32) rest).mapError
          (fun e => NumErr.asNumber ('0' :: 'b' :: rest) e))) ∧
    (∀ rest : List Char, 2 < rustByteLen ('0' :: 'x' :: rest) →
      deserialize_u32_from_str ('0' :: 'x' :: rest) =
        some ((fromStrRadix 16 (2 ^ 32) rest).mapError
          (fun e => NumErr.asNumber ('0' :: 'x' :: rest) e))) ∧
    (∀ s pre rest : List Char, 2 < rustByteLen s →
      splitAtByteOffset 2 s = some (pre, rest) →
      pre ≠ ['0', 'b'] → pre ≠ ['0', 'x'] →
      deserialize_u32_from_str s =
        some ((fromStrRadix 10 (2 ^ 32) s).mapError
          (fun e => NumErr.asNumber s e))) ∧
    (∀ s : List Char, rustByteLen s ≤ 2 →
      deserialize_u32_from_str s =
        some ((fromStrRadix 10 (2 ^ 32) s).mapError
          (fun e => NumErr.asDecimalNumber s e))) ∧
    deserialize_u32_from_str ['0', 'x', '8', '0', '0', '0', '0', '0', '0', '1'] =
      some (Except.ok 0x80000001) ∧
    deserialize_u32_from_str ['0', 'b', '0', '0', '0', '1', '1', '1'] =
      some (Except.ok 7) ∧
    deserialize_u32_from_str ['2', '0', '0'] = some (Except.ok 200) ∧
    deserialize_u32_from_str ['k'] =
      some (Except.error (NumErr.asDecimalNumber ['k'] IntErrKind.invalidDigit)) ∧
    deserialize_u32_from_str ['0', 'j', 'j', '0'] =
      some (Except.error (NumErr.asNumber ['0', 'j', 'j', '0'] IntErrKind.invalidDigit)) := by
  refine ⟨?_, ?_, ?_, ?_, by rfl, by rfl, by rfl, by rfl, by rfl⟩
  · intro rest h
    rw [deserialize_u32_from_str_split ('0' :: 'b' :: rest) ['0', 'b'] rest h
        (splitAtByteOffset_two_ascii '0' 'b' rfl rfl rest),
      if_pos rfl]
  · intro rest h
    rw [deserialize_u32_from_str_split ('0' :: 'x' :: rest) ['0', 'x'] rest h
        (splitAtByteOffset_two_ascii '0' 'x' rfl rfl rest),
      if_neg (by decide), if_pos rfl]
  · intro s pre rest h hsplit hb hx
    rw [deserialize_u32_from_str_split s pre rest h hsplit, if_neg hb, if_neg hx]
  · intro s h
    unfold deserialize_u32_from_str
    rw [if_neg (by omega)]

/-- C4 witness: the 0b clause evaluated on the text "0b1". -/
theorem C4_numeric_parser_dispatch_witness :
    2 < rustByteLen ['0', 'b', '1'] ∧
    deserialize_u32_from_str ['0', 'b', '1'] =
      some ((fromStrRadix 2 (2 ^ 32) ['1']).mapError
        (fun e => NumErr.asNumber ['0', 'b', '1'] e)) :=
  ⟨by decide, C4_numeric_parser_dispatch.1 ['1'] (by decide)⟩

/-- C4 counterexample: on the text "aé" (3 bytes, byte 2 inside the é) the
claim as stated demands a whole-text base-10 parse result, but the code
panics (byte-slice off a character boundary), modelled as none. -/
theorem C4_numeric_parser_dispatch_counterexample :
    deserialize_u32_from_str ['a', 'é'] = none ∧
    some ((fromStrRadix 10 (2 ^ 32) ['a', 'é']).mapError
        (fun e => NumErr.asNumber ['a', 'é'] e)) ≠
      (none : Option (Except NumErr Nat)) ∧
    some ((fromStrRadix 10 (2 ^ 32) ['a', 'é']).mapError
        (fun e => NumErr.asDecimalNumber ['a', 'é'] e)) ≠
      (none : Option (Except NumErr Nat)) := by
  refine ⟨by rfl, by simp, by simp⟩

/-- C8 (confirmed): RegisterValueFilter.apply computes
`(original AND (NOT filter)) OR value` on 64-bit words: bitwise, each of
the low 64 result bits keeps the original bit where the filter bit is 0
and asserts the value bit, and the result stays within 64 bits. -/
theorem C8_apply_formula (fv : RegisterValueFilter) (o : Nat)
    (ho : o < 2 ^ 64) (hF : fv.filter < 2 ^ 64) (hV : fv.value < 2 ^ 64) :
    (∀ i, i < 64 →
      (fv.apply o).testBit i =
        ((o.testBit i && !(fv.filter.testBit i)) || fv.value.testBit i)) ∧
    fv.apply o < 2 ^ 64 := by
  constructor
  · intro i hi
    unfold RegisterValueFilter.apply u64Not
    rw [Nat.testBit_or, Nat.testBit_and, Nat.testBit_xor,
      Nat.testBit_two_pow_sub_one, decide_eq_true hi, Bool.xor_true]
  · unfold RegisterValueFilter.apply u64Not
    refine Nat.or_lt_two_pow (Nat.and_lt_two_pow o ?_) hV
    exact Nat.xor_lt_two_pow hF (Nat.sub_lt (Nat.two_pow_pos 64) (by omega))

/-- C8 witness: the formula evaluated at filter 240, value 48, original 85. -/
theorem C8_apply_formula_witness :
    (85 < 2 ^ 64) ∧
    ((∀ i, i < 64 →
      ((RegisterValueFilter.mk 240 48).apply 85).testBit i =
        (((85 : Nat).testBit i && !((RegisterValueFilter.mk 240 48).filter.testBit i)) ||
          (RegisterValueFilter.mk 240 48).value.testBit i)) ∧
    (RegisterValueFilter.mk 240 48).apply 85 < 2 ^ 64) :=
  ⟨by decide, C8_apply_formula ⟨240, 48⟩ 85 (by decide) (by decide) (by decide)⟩

/-- C9 (code bug): the numeric parser is not total — on the text "€5"
(4 bytes, byte 2 inside the 3-byte €) the byte-slice `&s[0..2]` panics
instead of returning a typed error, contradicting the spec's no-panic
requirement; the panic is modelled as none. -/
theorem C9_parser_panics_on_multibyte :
    deserialize_u32_from_str ['€', '5'] = none := by
  rfl

/-- C10 (confirmed): the hex formatter emits 0x followed by at least one
lowercase hex digit (so at least 3 characters), and the multi-radix parser
maps the canonical text of any u32 back to exactly that number. -/
theorem C10_hex_format_roundtrip (n : Nat) (hn : n < 2 ^ 32) :
    deserialize_u32_from_str (serialize_u32_to_hex_str n) = some (Except.ok n) ∧
    3 ≤ (serialize_u32_to_hex_str n).length ∧
    ∀ c ∈ (serialize_u32_to_hex_str n).drop 2,
      (48 ≤ c.toNat ∧ c.toNat ≤ 57) ∨ (97 ≤ c.toNat ∧ c.toNat ≤ 102) := by
  have hds : fmtPad 14 0 n = ((minDigitsLE 14 n).reverse).map digitChar := by
    unfold fmtPad
    simp
  have hmem16 : ∀ d ∈ (minDigitsLE 14 n).reverse, d < 16 := by
    intro d hd
    rw [List.mem_reverse] at hd
    have := minDigitsLE_mem_lt 14 n d hd
    omega
  have hne : (minDigitsLE 14 n).reverse ≠ [] := by
    simp only [ne_eq, List.reverse_eq_nil_iff]
    exact minDigitsLE_ne_nil 14 n
  have hval : msbValN 16 0 ((minDigitsLE 14 n).reverse) = n := by
    have h := minDigitsLE_msbVal 14 n
    norm_num at h
    exact h
  have hlen1 : 0 < (minDigitsLE 14 n).length :=
    List.length_pos.mpr (minDigitsLE_ne_nil 14 n)
  have hsizes : ((fmtPad 14 0 n).map Char.utf8Size).sum = (minDigitsLE 14 n).length := by
    rw [hds, List.map_map]
    have hone : ∀ d ∈ (minDigitsLE 14 n).reverse,
        (Char.utf8Size ∘ digitChar) d = (fun _ => 1) d := by
      intro d hd
      exact utf8Size_digitChar d (hmem16 d hd)
    rw [List.map_congr_left hone]
    have hrep : ∀ l : List Nat, (l.map (fun _ => (1 : Nat))).sum = l.length := by
      intro l
      induction l with
      | nil => rfl
      | cons x t ih =>
        simp only [List.map_cons, List.sum_cons, ih, List.length_cons]
        omega
    rw [hrep]
    simp
  have hbyte : rustByteLen (serialize_u32_to_hex_str n) = 2 + (minDigitsLE 14 n).length := by
    unfold serialize_u32_to_hex_str rustByteLen
    simp only [List.map_cons, List.sum_cons]
    rw [show Char.utf8Size '0' = 1 from rfl, show Char.utf8Size 'x' = 1 from rfl]
    unfold rustByteLen at hsizes
    rw [hsizes]
    omega
  have h2lt : 2 < rustByteLen (serialize_u32_to_hex_str n) := by
    rw [hbyte]
    omega
  have hsplit : splitAtByteOffset 2 (serialize_u32_to_hex_str n) =
      some (['0', 'x'], fmtPad 14 0 n) := by
    unfold serialize_u32_to_hex_str
    exact splitAtByteOffset_two_ascii '0' 'x' rfl rfl (fmtPad 14 0 n)
  have hparse : fromStrRadix 16 (2 ^ 32) (fmtPad 14 0 n) = Except.ok n := by
    rw [hds]
    have h := fromStrRadix_map_digitChar (Or.inr (Or.inr rfl))
      ((minDigitsLE 14 n).reverse) hne hmem16 (by rw [hval]; exact hn)
    rwa [hval] at h
  refine ⟨?_, ?_, ?_⟩
  · rw [deserialize_u32_from_str_split (serialize_u32_to_hex_str n) ['0', 'x']
        (fmtPad 14 0 n) h2lt hsplit,
      if_neg (by decide), if_pos rfl, hparse]
    rfl
  · unfold serialize_u32_to_hex_str
    rw [hds]
    simp only [List.length_cons, List.length_map, List.length_reverse]
    omega
  · intro c hc
    unfold serialize_u32_to_hex_str at hc
    rw [show ('0' :: 'x' :: fmtPad 14 0 n).drop 2 = fmtPad 14 0 n from rfl, hds] at hc
    obtain ⟨d, hd, rfl⟩ := List.mem_map.mp hc
    exact digitChar_lowerHex d (hmem16 d hd)

/-- C10 witness: the canonical text of 26 ("0x1a") parses back to 26. -/
theorem C10_hex_format_roundtrip_witness :
    (26 < 2 ^ 32) ∧
    deserialize_u32_from_str (serialize_u32_to_hex_str 26) = some (Except.ok 26) :=
  ⟨by decide, (C10_hex_format_roundtrip 26 (by decide)).1⟩

end CpuTemplates
